import Mathlib

/-!
Shallow embedding of the Aiface biometric attendance server (`src/server.js`)
and proofs about its command handlers, command router and JSON record store.

Modelling conventions:
* JSON documents are values of the inductive type `JVal`; a JavaScript object
  is an association list in key-insertion order (`Obj`).  Numbers are exact
  rationals (`ℚ`): every finite IEEE double is a rational with a terminating
  decimal expansion, and no claim exercises float rounding or overflow.
* `getCloudTime().iso` is impure; handlers take the current ISO timestamp as
  an explicit `now : String` argument.
* File system writes can reject.  Each handler takes a `saveFails : Bool`
  flag modelling whether its `writeJsonSafe` call rejects, and returns
  `Except Unit …`: `.error ()` models a thrown/rejected promise that the
  router's catch-all turns into a 500 response.
* Each handler's collection round-trip (`readJsonSafe` at entry,
  `writeJsonSafe` at exit) is modelled by passing the loaded collection in
  and returning the saved collection; collections written by the server are
  always arrays of objects, hence `List Obj`.
-/

/-- A JSON value.  JavaScript `undefined` is not a `JVal`; absent object
fields are represented with `Option JVal` (`none` = `undefined`). -/
inductive JVal where
  | null
  | bool (b : Bool)
  | num (q : ℚ)
  | str (s : String)
  | arr (xs : List JVal)
  | obj (fs : List (String × JVal))
  deriving Repr

/-- A JavaScript object: fields in key-insertion order, keys unique for any
object the program builds or that `JSON.parse` produces. -/
abbrev Obj := List (String × JVal)

/-- Property read `o[k]`: first (hence only) binding of the key, `none` when
the key is absent (JavaScript `undefined`). -/
def objGet (o : Obj) (k : String) : Option JVal :=
  match o with
  | [] => none
  | (k2, v) :: rest => if k2 = k then some v else objGet rest k

/-- Property write `o[k] = v`: overwrites in place when the key exists
(keeping its position), otherwise appends — JavaScript assignment order
semantics. -/
def objSet (o : Obj) (k : String) (v : JVal) : Obj :=
  match o with
  | [] => [(k, v)]
  | (k2, w) :: rest => if k2 = k then (k2, v) :: rest else (k2, w) :: objSet rest k v

/-- Object spread `{...a, ...b}`: start from `a`, assign every field of `b`
in order. -/
def jsSpread (a b : Obj) : Obj :=
  b.foldl (fun acc kv => objSet acc kv.1 kv.2) a

/-- JavaScript truthiness of a value.  (`NaN` cannot occur: JSON has no NaN
literal and the server never stores one.) -/
def jsTruthy (v : JVal) : Bool :=
  match v with
  | .null => false
  | .bool b => b
  | .num q => decide (q ≠ 0)
  | .str s => decide (s ≠ "")
  | .arr _ => true
  | .obj _ => true

/-- Truthiness of a possibly-absent property (`undefined` is falsy). -/
def jsTruthyOpt (v : Option JVal) : Bool :=
  match v with
  | none => false
  | some x => jsTruthy x

/-- Is a possibly-absent value nullish (`undefined` or `null`), as tested by
the `??` operator? -/
def isNullishOpt (v : Option JVal) : Bool :=
  match v with
  | none => true
  | some .null => true
  | some _ => false

/-- `a || b || … || null`: the first truthy operand, else `null`. -/
def firstTruthy (vs : List (Option JVal)) : JVal :=
  match vs with
  | [] => .null
  | v :: rest => if jsTruthyOpt v then v.getD .null else firstTruthy rest

/-- `a ?? b ?? …`: the first non-nullish operand, `none` when every operand
is nullish. -/
def firstNonNullish (vs : List (Option JVal)) : Option JVal :=
  match vs with
  | [] => none
  | v :: rest => if isNullishOpt v then firstNonNullish rest else v

/-- Strict equality `===` on values.  Primitives compare by value.  Objects
and arrays compare by reference; in every comparison the server performs,
the two sides come from distinct `JSON.parse` results (stored file vs.
request body), so distinct references — the comparison is `false`. -/
def jsStrictEqVal (a b : JVal) : Bool :=
  match a, b with
  | .null, .null => true
  | .bool x, .bool y => x == y
  | .num x, .num y => x == y
  | .str x, .str y => x == y
  | _, _ => false

/-- Strict equality on possibly-absent properties:
`undefined === undefined` is `true`. -/
def jsStrictEqOpt (a b : Option JVal) : Bool :=
  match a, b with
  | none, none => true
  | some x, some y => jsStrictEqVal x y
  | _, _ => false

/-- `requireFields(obj, fields)` (server.js:105): collects the fields with
`!(f in obj)`.  On an object this is a key-presence test (the value may be
anything, including `null`); on an array none of the server's field names is
an index or array property, so all are missing; on a primitive the `in`
operator throws a `TypeError`, modelled as `.error ()`. -/
def requireFields (v : JVal) (fields : List String) : Except Unit (List String) :=
  match v with
  | .obj fs => .ok (fields.filter (fun f => ! fs.any (fun kv => kv.1 == f)))
  | .arr _ => .ok fields
  | _ => .error ()

/-- Property access `v.k` on an arbitrary value: throws on `null`
(modelled `.error ()`), yields the field on objects, and `undefined` on
auto-boxed primitives and on arrays (for the non-index keys the server
uses). -/
def jsGetProp (v : JVal) (k : String) : Except Unit (Option JVal) :=
  match v with
  | .null => .error ()
  | .obj fs => .ok (objGet fs k)
  | _ => .ok none

/- ### Decimal printing of numbers (for `String()` and `JSON.stringify`) -/

/-- The character for a decimal digit. -/
def digitChar (d : ℕ) : Char := Char.ofNat (48 + d)

/-- Fuel-driven base-10 digit expansion (most significant first); fuel
`n + 1` always suffices for `n`. -/
def natDigitsAux : ℕ → ℕ → List Char
  | 0, _ => []
  | fuel + 1, n =>
    if n < 10 then [digitChar n]
    else natDigitsAux fuel (n / 10) ++ [digitChar (n % 10)]

/-- Base-10 digits of a natural number, e.g. `natDigits 365 = "365".data`. -/
def natDigits (n : ℕ) : List Char := natDigitsAux (n + 1) n

/-- Numeric value of a digit string (most significant first). -/
def digitsVal (ds : List Char) : ℕ :=
  ds.foldl (fun a c => a * 10 + (c.toNat - 48)) 0

/-- Drop trailing `'0'` characters. -/
def dropTrailingZeros (ds : List Char) : List Char :=
  (ds.reverse.dropWhile (fun c => c == '0')).reverse

/-- Decimal rendering of a non-negative rational whose decimal expansion
terminates (every finite IEEE double satisfies this): integer part, then a
fractional part with trailing zeros stripped.  The scaled mantissa
`M = |num| · (10 ^ den / den)` equals `q · 10 ^ den` exactly when
`den ∣ 10 ^ den`, which holds for every terminating rational
(`den = 2^a·5^b` with `a, b ≤ den`).  Non-terminating rationals cannot
arise from JavaScript numbers; the fallback branch returns `"0"` and is
unreachable in any claim (they all restrict numbers to terminating
decimals). -/
def printQAbs (q : ℚ) : List Char :=
  let k := q.den
  if 10 ^ k % q.den = 0 then
    let M := q.num.natAbs * (10 ^ k / q.den)
    let I := M / 10 ^ k
    let F := M % 10 ^ k
    let fds := dropTrailingZeros (List.replicate (k - (natDigits F).length) '0' ++ natDigits F)
    if fds.isEmpty then natDigits I else natDigits I ++ '.' :: fds
  else ['0']

/-- Decimal rendering of a rational, with a leading minus sign when
negative (JavaScript renders `-0` as `"0"`; `ℚ` has a single zero). -/
def printQ (q : ℚ) : List Char :=
  if q < 0 then '-' :: printQAbs (-q) else printQAbs q

/- ### `String()` coercion -/

mutual

/-- JavaScript `String(v)` coercion of a JSON value. -/
def jsToString : JVal → String
  | .null => "null"
  | .bool b => if b then "true" else "false"
  | .num q => ⟨printQ q⟩
  | .str s => s
  | .arr xs => jsArrJoin xs
  | .obj _ => "[object Object]"

/-- `Array.prototype.join(",")` as used by array-to-string coercion. -/
def jsArrJoin : List JVal → String
  | [] => ""
  | x :: xs => jsElemString x ++ jsArrJoinRest xs

/-- The remaining joined elements, each preceded by the separator. -/
def jsArrJoinRest : List JVal → String
  | [] => ""
  | x :: xs => "," ++ jsElemString x ++ jsArrJoinRest xs

/-- One joined element: `join` renders `null` (and `undefined`) as the empty
string; every other value coerces with `String()`. -/
def jsElemString : JVal → String
  | .null => ""
  | .bool b => if b then "true" else "false"
  | .num q => ⟨printQ q⟩
  | .str s => s
  | .arr xs => jsArrJoin xs
  | .obj _ => "[object Object]"

end

/-- `String(v)` of a possibly-absent property (`String(undefined)` is
`"undefined"`). -/
def jsToStringU (v : Option JVal) : String :=
  match v with
  | none => "undefined"
  | some x => jsToString x

/- ### `parseFloat` -/

/-- Result of a successful `parseFloat`: a finite rational or an infinity
(`parseFloat("Infinity")`). -/
inductive PFloat where
  | fin (q : ℚ)
  | posInf
  | negInf
  deriving Repr

/-- Whitespace skipped by `parseFloat`. -/
def isJsWs (c : Char) : Bool :=
  c == ' ' || c == '\t' || c == '\n' || c == '\r' || c == '\x0b' || c == '\x0c'

/-- The exponent suffix of a string float literal: `e`/`E`, optional sign,
digits.  A suffix without digits (e.g. `"1e"`) is not consumed, matching
`parseFloat`'s longest-valid-prefix rule.  Returns the exponent, `0` when
absent. -/
def pfExponent (s : List Char) : ℤ :=
  match s with
  | c :: rest =>
    if c == 'e' || c == 'E' then
      let (esgn, r2) : ℤ × List Char :=
        match rest with
        | '-' :: r => (-1, r)
        | '+' :: r => (1, r)
        | _ => (1, rest)
      let eds := r2.takeWhile Char.isDigit
      if eds.isEmpty then 0 else esgn * digitsVal eds
    else 0
  | [] => 0

/-- `parseFloat` on a string: skip leading whitespace, optional sign, then
either `Infinity` or the longest prefix matching
`digits [. digits] [exponent]` (digits required on at least one side of the
point).  `none` models a `NaN` result. -/
def pfParse (s : List Char) : Option PFloat :=
  let s1 := s.dropWhile isJsWs
  let (neg, s2) : Bool × List Char :=
    match s1 with
    | '-' :: r => (true, r)
    | '+' :: r => (false, r)
    | _ => (false, s1)
  if "Infinity".data.isPrefixOf s2 then
    some (if neg then .negInf else .posInf)
  else
    let ids := s2.takeWhile Char.isDigit
    let r3 := s2.dropWhile Char.isDigit
    let (fds, r4) : List Char × List Char :=
      match r3 with
      | '.' :: rr => (rr.takeWhile Char.isDigit, rr.dropWhile Char.isDigit)
      | _ => ([], r3)
    if ids.isEmpty && fds.isEmpty then none
    else
      let e := pfExponent r4
      let base : ℚ := (digitsVal ids : ℚ) + (digitsVal fds : ℚ) / (10 : ℚ) ^ fds.length
      let signed := if neg then -base else base
      some (.fin (signed * (10 : ℚ) ^ e))

/-- `parseFloat(v)` on a JSON value: a number is returned unchanged (its
`String()` rendering re-parses to the same double); anything else is coerced
with `String()` and parsed (`String(null) = "null"`, booleans and plain
objects coerce to non-numeric strings, arrays to the join of their
elements). -/
def jsParseFloat (v : JVal) : Option PFloat :=
  match v with
  | .num q => some (.fin q)
  | w => pfParse (jsToString w).data

/- ### Command handlers (server.js:149–355) -/

/-- A handler outcome `{ status, body }`. -/
structure HandlerResult where
  status : ℕ
  body : Obj
  deriving Repr

/-- The device record built by `handleReg` (server.js:161–168).  `raw` keeps
the whole request body; alias resolution uses `||`, so a falsy `Model`
falls through to `model` and an absent alias pair yields `null`.  The guard
in `handleReg` ensures the `SN` key is present, so the `.getD .null`
default is never exercised. -/
def mkRegRecord (reqBody : Obj) (now : String) : Obj :=
  [("SN", (objGet reqBody "SN").getD .null),
   ("model", firstTruthy [objGet reqBody "Model", objGet reqBody "model"]),
   ("capacities", firstTruthy [objGet reqBody "Capacities", objGet reqBody "capacities"]),
   ("ip", firstTruthy [objGet reqBody "ip", objGet reqBody "IP"]),
   ("raw", .obj reqBody),
   ("registeredAt", .str now)]

/-- `handleReg` (server.js:149–191): require the `SN` key (400 otherwise),
look up the device by `d.SN === reqBody.SN` (first match), shallow-merge
the fresh record into the existing one or append, save, reply 200. -/
def handleReg (devices : List Obj) (reqBody : Obj) (saveFails : Bool) (now : String) :
    Except Unit (HandlerResult × List Obj) :=
  match requireFields (.obj reqBody) ["SN"] with
  | .error _ => .error ()
  | .ok missing =>
    if missing.isEmpty then
      let record := mkRegRecord reqBody now
      let devices2 :=
        match List.findIdx? (fun d => jsStrictEqOpt (objGet d "SN") (objGet reqBody "SN")) devices with
        | some i => devices.set i (jsSpread ((devices.get? i).getD []) record)
        | none => devices ++ [record]
      if saveFails then .error ()
      else
        .ok (⟨200, [("ret", .str "reg"), ("result", .bool true), ("cloudtime", .str now),
                    ("nosenduser", .bool true),
                    ("message", .str "Device registered successfully")]⟩, devices2)
    else
      .ok (⟨400, [("error", .str ("Missing required fields: " ++ String.intercalate ", " missing))]⟩,
           devices)

/-- The resolved temperature of a log entry:
`l.temp ?? l.temperature ?? null` (server.js:226). -/
def tempOf (l : Obj) : JVal :=
  (firstNonNullish [objGet l "temp", objGet l "temperature"]).getD .null

/-- The deny condition of server.js:228:
`temperature !== null && !isNaN(parseFloat(temperature)) && parseFloat(temperature) >= 38.0`. -/
def denyTemp (t : JVal) : Bool :=
  match t with
  | .null => false
  | v =>
    match jsParseFloat v with
    | some (.fin q) => decide ((38 : ℚ) ≤ q)
    | some .posInf => true
    | some .negInf => false
    | none => false

/-- The access decision of a log entry: `0` (deny) when the deny condition
holds, else `1` (allow). -/
def accessOf (l : Obj) : ℕ := if denyTemp (tempOf l) then 0 else 1

/-- The log entry stored for an accepted record (server.js:232–242). -/
def mkLogEntry (l : Obj) (reqBody : Obj) (now : String) : Obj :=
  [("enrollid", .str (jsToString ((objGet l "enrollid").getD .null))),
   ("timestamp", (objGet l "timestamp").getD .null),
   ("verifyMode", (firstNonNullish [objGet l "verifyMode", objGet l "verify_mode"]).getD .null),
   ("temperature", tempOf l),
   ("image", (firstNonNullish [objGet l "image"]).getD .null),
   ("deviceSN", firstTruthy [objGet reqBody "SN"]),
   ("serverReceivedAt", .str now),
   ("access", .num (accessOf l)),
   ("raw", .obj l)]

/-- The `for (const l of logsArray)` loop of `handleSendLog`
(server.js:214–246), producing the list of stored entries in order.  An
entry missing `enrollid` or `timestamp` is skipped; a primitive entry makes
`requireFields` throw (`in` on a primitive), aborting the whole request.
An accepted entry is always an object: an array reports every field
missing and is skipped, a primitive throws. -/
def processLogs (entries : List JVal) (reqBody : Obj) (now : String) :
    Except Unit (List Obj) :=
  match entries with
  | [] => .ok []
  | l :: rest =>
    match requireFields l ["enrollid", "timestamp"] with
    | .error _ => .error ()
    | .ok missing =>
      if missing.isEmpty then
        match l with
        | .obj lo => (processLogs rest reqBody now).map (fun tail => mkLogEntry lo reqBody now :: tail)
        | _ => .error ()
      else
        processLogs rest reqBody now

/-- `handleSendLog` (server.js:198–266): resolve the container with
`reqBody.logs || reqBody.log || reqBody.data || null` (400 when null), wrap
a single object into a one-element array (400 when the array is empty),
process the entries, append them to the logs collection, save, and reply
200 with total/allowed/denied counts. -/
def handleSendLog (logs : List Obj) (reqBody : Obj) (saveFails : Bool) (now : String) :
    Except Unit (HandlerResult × List Obj) :=
  let container := firstTruthy [objGet reqBody "logs", objGet reqBody "log", objGet reqBody "data"]
  if jsTruthy container then
    let logsArray := match container with | .arr xs => xs | v => [v]
    if logsArray.isEmpty then
      .ok (⟨400, [("error", .str "No log entries provided")]⟩, logs)
    else
      match processLogs logsArray reqBody now with
      | .error _ => .error ()
      | .ok stored =>
        if saveFails then .error ()
        else
          let allowedCount :=
            (stored.filter (fun e => jsStrictEqOpt (objGet e "access") (some (.num 1)))).length
          .ok (⟨200, [("ret", .str "sendlog"), ("result", .bool true), ("cloudtime", .str now),
                      ("log_count", .num stored.length), ("allowed", .num allowedCount),
                      ("denied", .num (stored.length - allowedCount)),
                      ("message", .str "Logs received")]⟩, logs ++ stored)
  else
    .ok (⟨400, [("error", .str "Missing logs array (logs)")]⟩, logs)

/-- `handleCheckLive` (server.js:272–301): when the payload's `SN` is truthy
and matches a stored device (`d.SN === reqBody.SN`), set that device's
`lastSeen` and `rawLast` and save; the whole update is inside a
`try … catch` that only logs, so a failed save leaves the collection file
unchanged and the handler never throws.  Always replies 200. -/
def handleCheckLive (devices : List Obj) (reqBody : Obj) (saveFails : Bool) (now : String) :
    HandlerResult × List Obj :=
  let devices2 :=
    if jsTruthyOpt (objGet reqBody "SN") then
      match List.findIdx? (fun d => jsStrictEqOpt (objGet d "SN") (objGet reqBody "SN")) devices with
      | some i =>
        if saveFails then devices
        else devices.set i
          (objSet (objSet ((devices.get? i).getD []) "lastSeen" (.str now)) "rawLast" (.obj reqBody))
      | none => devices
    else devices
  (⟨200, [("ret", .str "checklive"), ("result", .bool true), ("cloudtime", .str now),
          ("message", .str "alive")]⟩, devices2)

/-- The user record built by `handleSendUser` (server.js:324–333). -/
def mkUserRecord (u : Obj) (uid : JVal) (reqBody : Obj) (now : String) : Obj :=
  [("id", .str (jsToString uid)),
   ("name", (firstNonNullish [objGet u "name", objGet u "username"]).getD .null),
   ("password", (firstNonNullish [objGet u "password"]).getD .null),
   ("card", (firstNonNullish [objGet u "card"]).getD .null),
   ("fingerprint", (firstNonNullish [objGet u "fingerprint"]).getD .null),
   ("deviceSN", firstTruthy [objGet reqBody "SN"]),
   ("createdAt", .str now),
   ("raw", .obj u)]

/-- The `for (const u of newUsers)` loop of `handleSendUser`
(server.js:316–341) over the mutable users collection; returns the updated
collection and the number of processed (`added.push`) records.  A `null`
entry throws (`null.id`); an entry whose `id`/`userid`/`enrollid` are all
falsy is skipped — only objects can pass that guard, so the non-object
fallthrough case is unreachable.  The identity key is
`u.id ?? u.userid ?? u.enrollid` (nullish, not truthiness, selection) and
the lookup compares `String(x.id) === String(uid)`. -/
def processUsers (users : List Obj) (newUsers : List JVal) (reqBody : Obj) (now : String) :
    Except Unit (List Obj × ℕ) :=
  match newUsers with
  | [] => .ok (users, 0)
  | u :: rest =>
    match jsGetProp u "id", jsGetProp u "userid", jsGetProp u "enrollid" with
    | .ok pid, .ok puserid, .ok penrollid =>
      if jsTruthyOpt pid || jsTruthyOpt puserid || jsTruthyOpt penrollid then
        match u with
        | .obj uo =>
          let uid := (firstNonNullish [pid, puserid, penrollid]).getD .null
          let record := mkUserRecord uo uid reqBody now
          let users2 :=
            match List.findIdx? (fun x => jsToStringU (objGet x "id") == jsToString uid) users with
            | some i => users.set i (objSet (jsSpread ((users.get? i).getD []) record) "updatedAt" (.str now))
            | none => users ++ [record]
          (processUsers users2 rest reqBody now).map (fun p => (p.1, p.2 + 1))
        | _ => processUsers users rest reqBody now
      else
        processUsers users rest reqBody now
    | _, _, _ => .error ()

/-- `handleSendUser` (server.js:307–355): resolve the container with
`reqBody.user || reqBody.users || null` (400 when null), wrap a single
object, process the entries against the users collection, save, reply 200
with the processed count. -/
def handleSendUser (users : List Obj) (reqBody : Obj) (saveFails : Bool) (now : String) :
    Except Unit (HandlerResult × List Obj) :=
  let userObj := firstTruthy [objGet reqBody "user", objGet reqBody "users"]
  if jsTruthy userObj then
    let newUsers := match userObj with | .arr xs => xs | v => [v]
    match processUsers users newUsers reqBody now with
    | .error _ => .error ()
    | .ok (users2, added) =>
      if saveFails then .error ()
      else
        .ok (⟨200, [("ret", .str "senduser"), ("result", .bool true), ("cloudtime", .str now),
                    ("added", .num added),
                    ("message", .str "Users processed successfully")]⟩, users2)
  else
    .ok (⟨400, [("error", .str "Missing user payload (user/users)")]⟩, users)

/- ### Command router (server.js:360–420) -/

/-- The three persisted collections. -/
structure ServerState where
  devices : List Obj
  logs : List Obj
  users : List Obj

/-- The HTTP response of one `POST /api` request. -/
structure RouteResult where
  status : ℕ
  body : Obj
  deriving Repr

/-- `trim()`: strip leading and trailing whitespace. -/
def jsTrimChars (s : List Char) : List Char :=
  ((s.dropWhile isJsWs).reverse.dropWhile isJsWs).reverse

/-- `toLowerCase()` on one character (ASCII range; no command string the
router compares against contains a non-ASCII letter). -/
def jsLowerChar (c : Char) : Char :=
  if 'A' ≤ c ∧ c ≤ 'Z' then Char.ofNat (c.toNat + 32) else c

/-- `String(cmd).trim().toLowerCase()` (server.js:383). -/
def cmdNorm (v : JVal) : String := ⟨(jsTrimChars (jsToString v).data).map jsLowerChar⟩

/-- The router's 400 body for a missing/invalid JSON body or missing `cmd`. -/
def routerErrBody (now msg : String) : Obj :=
  [("ret", .null), ("result", .bool false), ("cloudtime", .str now), ("error", .str msg)]

/-- The catch-all 500 body (server.js:413–418). -/
def internalErrBody (now : String) : Obj :=
  [("ret", .null), ("result", .bool false), ("cloudtime", .str now),
   ("error", .str "Internal server error")]

/-- `routeCommand` (server.js:360–420): reject a non-object body
(`!body || typeof body !== "object"`; an array has `typeof "object"` and
falls through to the falsy-`cmd` check), reject a falsy `cmd`, normalize the
command, dispatch, and turn any handler exception into a 500 with the
generic body.  Returns the response together with the resulting persisted
state. -/
def routeCommand (body : JVal) (st : ServerState) (saveFails : Bool) (now : String) :
    RouteResult × ServerState :=
  let onMissingCmd : RouteResult × ServerState :=
    (⟨400, routerErrBody now "Missing 'cmd' property"⟩, st)
  match body with
  | .obj bo =>
    let cmd := objGet bo "cmd"
    if jsTruthyOpt cmd then
      let cmdStr := cmdNorm (cmd.getD .null)
      if cmdStr = "reg" then
        match handleReg st.devices bo saveFails now with
        | .ok (r, d2) => (⟨r.status, r.body⟩, { st with devices := d2 })
        | .error _ => (⟨500, internalErrBody now⟩, st)
      else if cmdStr = "sendlog" then
        match handleSendLog st.logs bo saveFails now with
        | .ok (r, l2) => (⟨r.status, r.body⟩, { st with logs := l2 })
        | .error _ => (⟨500, internalErrBody now⟩, st)
      else if cmdStr = "checklive" then
        let (r, d2) := handleCheckLive st.devices bo saveFails now
        (⟨r.status, r.body⟩, { st with devices := d2 })
      else if cmdStr = "senduser" then
        match handleSendUser st.users bo saveFails now with
        | .ok (r, u2) => (⟨r.status, r.body⟩, { st with users := u2 })
        | .error _ => (⟨500, internalErrBody now⟩, st)
      else
        (⟨400, [("ret", .str cmdStr), ("result", .bool false), ("cloudtime", .str now),
                ("error", .str ("Unknown cmd: " ++ cmdStr))]⟩, st)
    else onMissingCmd
  | .arr _ => onMissingCmd
  | _ => (⟨400, routerErrBody now "Invalid or missing JSON body"⟩, st)

/- ### Record store: `JSON.stringify(obj, null, 2)` (server.js:80) -/

/-- The character for a hexadecimal digit (lowercase). -/
def hexDigitChar (d : ℕ) : Char := if d < 10 then digitChar d else Char.ofNat (87 + d)

/-- `JSON.stringify` escaping of one string character: `"` and `\` get a
backslash, the named control escapes are used for backspace, tab, newline,
form feed and carriage return, any other control character becomes
`\u00xx`, and everything else is emitted raw. -/
def escapeChar (c : Char) : List Char :=
  if c = '"' then ['\\', '"']
  else if c = '\\' then ['\\', '\\']
  else if c = '\x08' then ['\\', 'b']
  else if c = '\t' then ['\\', 't']
  else if c = '\n' then ['\\', 'n']
  else if c = '\x0c' then ['\\', 'f']
  else if c = '\r' then ['\\', 'r']
  else if c.toNat < 32 then
    ['\\', 'u', '0', '0', hexDigitChar (c.toNat / 16), hexDigitChar (c.toNat % 16)]
  else [c]

/-- Escape a whole string. -/
def escapeChars (s : List Char) : List Char :=
  match s with
  | [] => []
  | c :: rest => escapeChar c ++ escapeChars rest

/-- A JSON string literal: quote, escaped content, quote. -/
def printStr (s : String) : List Char := '"' :: (escapeChars s.data ++ ['"'])

/-- The newline-plus-indent separator `JSON.stringify` emits at nesting
depth `n` when called with indent width 2. -/
def indentChars (n : ℕ) : List Char := '\n' :: List.replicate n ' '

mutual

/-- `JSON.stringify(v, null, 2)` at indentation level `ind`: pretty-printed
with two-space indentation, `": "` after object keys, and newline-separated
container items. -/
def printJson (ind : ℕ) : JVal → List Char
  | .null => ['n', 'u', 'l', 'l']
  | .bool b => if b then ['t', 'r', 'u', 'e'] else ['f', 'a', 'l', 's', 'e']
  | .num q => printQ q
  | .str s => printStr s
  | .arr [] => ['[', ']']
  | .arr (x :: xs) =>
    '[' :: (indentChars (ind + 2) ++ printJson (ind + 2) x ++ printItemsRest ind xs
            ++ indentChars ind ++ [']'])
  | .obj [] => ['\x7b', '\x7d']
  | .obj ((k, v) :: fs) =>
    '\x7b' :: (indentChars (ind + 2) ++ printStr k ++ ':' :: ' ' :: printJson (ind + 2) v
               ++ printFieldsRest ind fs ++ indentChars ind ++ ['\x7d'])

/-- The remaining array items, each preceded by `,` and the separator. -/
def printItemsRest (ind : ℕ) : List JVal → List Char
  | [] => []
  | x :: xs => ',' :: (indentChars (ind + 2) ++ printJson (ind + 2) x ++ printItemsRest ind xs)

/-- The remaining object fields, each preceded by `,` and the separator. -/
def printFieldsRest (ind : ℕ) : List (String × JVal) → List Char
  | [] => []
  | (k, v) :: fs =>
    ',' :: (indentChars (ind + 2) ++ printStr k ++ ':' :: ' ' :: printJson (ind + 2) v
            ++ printFieldsRest ind fs)

end

/-- The serialized document written by `writeJsonSafe`. -/
def stringifyJ (v : JVal) : String := ⟨printJson 0 v⟩

/- ### Record store: `JSON.parse` (server.js:68) -/

/-- JSON insignificant whitespace. -/
def isWsChar (c : Char) : Bool := c == ' ' || c == '\t' || c == '\n' || c == '\r'

/-- Skip insignificant whitespace. -/
def skipWs (s : List Char) : List Char := s.dropWhile isWsChar

/-- The value of a hexadecimal digit character. -/
def hexVal (c : Char) : Option ℕ :=
  if c.isDigit then some (c.toNat - 48)
  else if 'a' ≤ c ∧ c ≤ 'f' then some (c.toNat - 87)
  else if 'A' ≤ c ∧ c ≤ 'F' then some (c.toNat - 55)
  else none

/-- The character named by a single-character escape sequence. -/
def escChar (e : Char) : Option Char :=
  if e = '"' then some '"'
  else if e = '\\' then some '\\'
  else if e = '/' then some '/'
  else if e = 'b' then some '\x08'
  else if e = 'f' then some '\x0c'
  else if e = 'n' then some '\n'
  else if e = 'r' then some '\r'
  else if e = 't' then some '\t'
  else none

/-- Parse the body of a JSON string literal (after the opening quote) up to
and including the closing quote, decoding escapes.  Raw control characters
are rejected, as `JSON.parse` does.  A `\uXXXX` escape is decoded to the
corresponding character; a lone surrogate code unit is rejected (Lean
characters are Unicode scalar values — `JSON.parse` would accept it, but no
server value contains one). -/
def parseStringBody : List Char → Option (List Char × List Char)
  | [] => none
  | c :: rest =>
    if c = '"' then some ([], rest)
    else if c = '\\' then
      match rest with
      | [] => none
      | e :: rest2 =>
        if e = 'u' then
          match rest2 with
          | h1 :: h2 :: h3 :: h4 :: rest3 =>
            match hexVal h1, hexVal h2, hexVal h3, hexVal h4 with
            | some a, some b, some c2, some d =>
              let code := ((a * 16 + b) * 16 + c2) * 16 + d
              if code < 55296 ∨ (57344 ≤ code ∧ code < 1114112) then
                (parseStringBody rest3).map (fun p => (Char.ofNat code :: p.1, p.2))
              else none
            | _, _, _, _ => none
          | _ => none
        else
          match escChar e with
          | some c2 => (parseStringBody rest2).map (fun p => (c2 :: p.1, p.2))
          | none => none
    else if c.toNat < 32 then none
    else (parseStringBody rest).map (fun p => (c :: p.1, p.2))

/-- Finish parsing a JSON number from its parts: optional sign, integer
digits, fraction digits, then an optional exponent read from the remaining
input (`e`/`E`, optional sign, mandatory digits). -/
def parseNumFinish (neg : Bool) (ids fds : List Char) (s : List Char) :
    Option (ℚ × List Char) :=
  let base : ℚ := (digitsVal ids : ℚ) + (digitsVal fds : ℚ) / (10 : ℚ) ^ fds.length
  let signed := if neg then -base else base
  match s with
  | c :: rr =>
    if c = 'e' ∨ c = 'E' then
      let (esgn, r2) : ℤ × List Char :=
        match rr with
        | '-' :: r => (-1, r)
        | '+' :: r => (1, r)
        | _ => (1, rr)
      let eds := r2.takeWhile Char.isDigit
      if eds.isEmpty then none
      else some (signed * (10 : ℚ) ^ (esgn * (digitsVal eds : ℤ)), r2.dropWhile Char.isDigit)
    else some (signed, s)
  | [] => some (signed, [])

/-- The sign-independent part of JSON number parsing: integer digits (no
leading zeros), optional fraction (at least one digit), optional
exponent. -/
def parseNumBody (neg : Bool) (s1 : List Char) : Option (ℚ × List Char) :=
  let ids := s1.takeWhile Char.isDigit
  let r2 := s1.dropWhile Char.isDigit
  if ids.isEmpty then none
  else if 1 < ids.length ∧ ids.headI = '0' then none
  else
    match r2 with
    | '.' :: rr =>
      let fds := rr.takeWhile Char.isDigit
      if fds.isEmpty then none
      else parseNumFinish neg ids fds (rr.dropWhile Char.isDigit)
    | _ => parseNumFinish neg ids [] r2

/-- Parse a JSON number: `-? int frac? exp?`. -/
def parseNumber (s : List Char) : Option (ℚ × List Char) :=
  match s with
  | '-' :: r => parseNumBody true r
  | _ => parseNumBody false s

/-- Rebuild a parsed object from its field list with assignment semantics:
on duplicate keys the last value wins while the key keeps its first
position, as `JSON.parse` behaves. -/
def buildObj (fs : List (String × JVal)) : Obj :=
  fs.foldl (fun acc kv => objSet acc kv.1 kv.2) []

mutual

/-- Parse one JSON value (leading whitespace allowed).  The fuel argument
dominates the recursion; one unit is spent per value and per container
item, so `input length + 1` always suffices. -/
def parseJValue : ℕ → List Char → Option (JVal × List Char)
  | 0, _ => none
  | fuel + 1, s =>
    match skipWs s with
    | [] => none
    | c :: rest =>
      if c = '\x7b' then
        match skipWs rest with
        | '\x7d' :: r2 => some (.obj [], r2)
        | _ => (parseJFields fuel rest).map (fun p => (JVal.obj (buildObj p.1), p.2))
      else if c = '[' then
        match skipWs rest with
        | ']' :: r2 => some (.arr [], r2)
        | _ => (parseJItems fuel rest).map (fun p => (JVal.arr p.1, p.2))
      else if c = '"' then
        (parseStringBody rest).map (fun p => (JVal.str ⟨p.1⟩, p.2))
      else if c = 't' then
        match rest with
        | 'r' :: 'u' :: 'e' :: r2 => some (.bool true, r2)
        | _ => none
      else if c = 'f' then
        match rest with
        | 'a' :: 'l' :: 's' :: 'e' :: r2 => some (.bool false, r2)
        | _ => none
      else if c = 'n' then
        match rest with
        | 'u' :: 'l' :: 'l' :: r2 => some (.null, r2)
        | _ => none
      else
        (parseNumber (c :: rest)).map (fun p => (JVal.num p.1, p.2))

/-- Parse the items of a non-empty array (after `[`), including the
closing `]`. -/
def parseJItems : ℕ → List Char → Option (List JVal × List Char)
  | 0, _ => none
  | fuel + 1, s =>
    match parseJValue fuel s with
    | none => none
    | some (v, r1) =>
      match skipWs r1 with
      | ',' :: r2 => (parseJItems fuel r2).map (fun p => (v :: p.1, p.2))
      | ']' :: r2 => some ([v], r2)
      | _ => none

/-- Parse the fields of a non-empty object (after the opening brace),
including the closing brace. -/
def parseJFields : ℕ → List Char → Option (List (String × JVal) × List Char)
  | 0, _ => none
  | fuel + 1, s =>
    match skipWs s with
    | '"' :: r1 =>
      match parseStringBody r1 with
      | none => none
      | some (k, r2) =>
        match skipWs r2 with
        | ':' :: r3 =>
          match parseJValue fuel r3 with
          | none => none
          | some (v, r4) =>
            match skipWs r4 with
            | ',' :: r5 => (parseJFields fuel r5).map (fun p => ((⟨k⟩, v) :: p.1, p.2))
            | '\x7d' :: r5 => some ([(⟨k⟩, v)], r5)
            | _ => none
        | _ => none
    | _ => none

end

/-- `JSON.parse(s)`: one JSON value surrounded by optional whitespace;
`none` models a thrown `SyntaxError`. -/
def jsonParse (s : String) : Option JVal :=
  match parseJValue (s.data.length + 1) s.data with
  | some (v, rest) => if (skipWs rest).isEmpty then some v else none
  | none => none

/- ### Record store:  `readJsonSafe` / `writeJsonSafe` (server.js:62–82) -/

/-- The state of a collection file as the record store sees it. -/
inductive FileState where
  | missing
  | content (s : String)

/-- `readJsonSafe(filePath, defaultValue)` (server.js:62–73): the default
when the file is missing or empty, the parsed document when its content
parses, and — because the whole body is wrapped in `try … catch` that only
logs — the default again when `JSON.parse` throws.  The function is total:
it never raises to its caller. -/
def readJsonSafe (fileState : FileState) (defaultValue : JVal) : JVal :=
  match fileState with
  | .missing => defaultValue
  | .content raw =>
    if raw = "" then defaultValue
    else
      match jsonParse raw with
      | some v => v
      | none => defaultValue

/-- `writeJsonSafe(filePath, obj)` (server.js:78–82): serialize with
`JSON.stringify(obj, null, 2)`, write to a temporary path, atomically
rename over the target.  Its effect on the file state (after a successful
rename) is captured as the resulting content. -/
def writeJsonSafe (obj : JVal) : FileState := .content (stringifyJ obj)

/- ### Spec-side definitions and auxiliary measures -/

/-- Modelled from the spec sentence for the temperature rule, as a function
of the entry's resolved temperature value: present (non-null), parsing as a
number, and at least 38.0 gives 0 (deny); absent, non-numeric, or below
38.0 gives 1 (allow).  (An infinite `parseFloat` result is numeric and not
below 38.) -/
def specAccessOf (t : JVal) : ℕ :=
  match t with
  | .null => 1
  | v =>
    match jsParseFloat v with
    | none => 1
    | some (.fin q) => if 38 ≤ q then 0 else 1
    | some .posInf => 0
    | some .negInf => 1

/-- Does a log entry object carry both required fields? -/
def hasLogFields (lo : Obj) : Bool :=
  ["enrollid", "timestamp"].all (fun f => lo.any (fun kv => kv.1 == f))

/-- The object entries of a `sendlog` batch that carry both `enrollid` and
`timestamp`, in order — the entries the handler accepts. -/
def acceptedLogs (entries : List JVal) : List Obj :=
  entries.filterMap (fun e =>
    match e with
    | .obj lo => if hasLogFields lo then some lo else none
    | _ => none)

/-- The normalized entry sequence of a `sendlog` request: the resolved
container itself when it is an array, otherwise the one-element wrap. -/
def logsArrayOf (body : Obj) : List JVal :=
  match firstTruthy [objGet body "logs", objGet body "log", objGet body "data"] with
  | .arr xs => xs
  | v => [v]

/-- The six keys the fresh registration record always carries. -/
def regFieldKeys : List String :=
  ["SN", "model", "capacities", "ip", "raw", "registeredAt"]

/-- Are the keys of a field list pairwise distinct? -/
def nodupKeysB : List (String × JVal) → Bool
  | [] => true
  | (k, _) :: fs => ¬ fs.any (fun kv => kv.1 == k) && nodupKeysB fs

mutual

/-- Well-formedness of a JSON document as `JSON.stringify` receives it from
the server: every number has a terminating decimal expansion (true of every
IEEE double) and every object has pairwise-distinct keys (true of every
JavaScript object). -/
def wfJ : JVal → Bool
  | .null => true
  | .bool _ => true
  | .num q => 10 ^ q.den % q.den == 0
  | .str _ => true
  | .arr xs => wfList xs
  | .obj fs => nodupKeysB fs && wfFields fs

/-- Well-formedness of array items. -/
def wfList : List JVal → Bool
  | [] => true
  | x :: xs => wfJ x && wfList xs

/-- Well-formedness of object field values. -/
def wfFields : List (String × JVal) → Bool
  | [] => true
  | (_, v) :: fs => wfJ v && wfFields fs

end

mutual

/-- Fuel consumed by `parseJValue` on this value's printed form: one unit
per value plus one per container item. -/
def fuelNeeded : JVal → ℕ
  | .null => 1
  | .bool _ => 1
  | .num _ => 1
  | .str _ => 1
  | .arr xs => 1 + fuelNeededList xs
  | .obj fs => 1 + fuelNeededFields fs

/-- Fuel consumed by `parseJItems` on these items. -/
def fuelNeededList : List JVal → ℕ
  | [] => 0
  | x :: xs => 1 + fuelNeeded x + fuelNeededList xs

/-- Fuel consumed by `parseJFields` on these fields. -/
def fuelNeededFields : List (String × JVal) → ℕ
  | [] => 0
  | (_, v) :: fs => 1 + fuelNeeded v + fuelNeededFields fs

end

/- ### Object algebra lemmas -/

theorem objGet_objSet (o : Obj) (k k2 : String) (v : JVal) :
    objGet (objSet o k v) k2 = if k = k2 then some v else objGet o k2 := by
  induction o with
  | nil =>
    by_cases h : k = k2 <;> simp [objSet, objGet, h]
  | cons hd tl ih =>
    obtain ⟨k3, w⟩ := hd
    by_cases h3 : k3 = k
    · subst h3
      by_cases h2 : k3 = k2 <;> simp [objSet, objGet, h2]
    · by_cases h2 : k3 = k2
      · subst h2
        have hne : k ≠ k3 := fun h => h3 h.symm
        simp [objSet, objGet, h3, hne]
      · simp [objSet, objGet, h3, h2, ih]

theorem objGet_eq_none_of_any_false (o : Obj) (k : String)
    (h : o.any (fun kv => kv.1 == k) = false) : objGet o k = none := by
  induction o with
  | nil => rfl
  | cons hd tl ih =>
    obtain ⟨k2, w⟩ := hd
    simp only [List.any_cons, Bool.or_eq_false_iff] at h
    have hk2 : k2 ≠ k := by
      intro he
      simp [he] at h
    simp [objGet, hk2, ih h.2]

theorem any_eq_true_of_objGet_some (o : Obj) (k : String) (v : JVal)
    (h : objGet o k = some v) : o.any (fun kv => kv.1 == k) = true := by
  induction o with
  | nil => simp [objGet] at h
  | cons hd tl ih =>
    obtain ⟨k2, w⟩ := hd
    by_cases hk : k2 = k
    · simp [hk]
    · simp only [objGet, hk, if_false] at h
      simp [List.any_cons, ih h]

theorem objGet_jsSpread (a b : Obj) (k : String) (hb : nodupKeysB b = true) :
    objGet (jsSpread a b) k =
      match objGet b k with
      | some v => some v
      | none => objGet a k := by
  induction b generalizing a with
  | nil => simp [jsSpread, objGet]
  | cons hd tl ih =>
    obtain ⟨k2, v⟩ := hd
    simp only [nodupKeysB, Bool.and_eq_true] at hb
    have hfresh : tl.any (fun kv => kv.1 == k2) = false := by
      simpa using hb.1
    have step : jsSpread a ((k2, v) :: tl) = jsSpread (objSet a k2 v) tl := by
      simp [jsSpread]
    rw [step, ih _ hb.2]
    by_cases hk : k2 = k
    · subst hk
      have hnone : objGet tl k2 = none := objGet_eq_none_of_any_false _ _ hfresh
      simp [objGet, hnone, objGet_objSet]
    · simp [objGet, hk, objGet_objSet, hk]

theorem nodupKeysB_mkRegRecord (body : Obj) (now : String) :
    nodupKeysB (mkRegRecord body now) = true := by
  simp [nodupKeysB, mkRegRecord]

theorem objGet_mkRegRecord_sn (body : Obj) (now : String) :
    objGet (mkRegRecord body now) "SN" = some ((objGet body "SN").getD .null) := by
  simp [mkRegRecord, objGet]

theorem objGet_mkRegRecord_of_not_key (body : Obj) (now : String) (k : String)
    (hk : k ∉ regFieldKeys) : objGet (mkRegRecord body now) k = none := by
  simp only [regFieldKeys, List.mem_cons, List.not_mem_nil, or_false, not_or] at hk
  obtain ⟨h1, h2, h3, h4, h5, h6⟩ := hk
  simp [mkRegRecord, objGet, Ne.symm h1, Ne.symm h2, Ne.symm h3, Ne.symm h4,
    Ne.symm h5, Ne.symm h6]

theorem objGet_mkRegRecord_of_key (body : Obj) (now : String) (k : String)
    (hk : k ∈ regFieldKeys) : (objGet (mkRegRecord body now) k).isSome = true := by
  simp only [regFieldKeys, List.mem_cons, List.not_mem_nil, or_false] at hk
  rcases hk with h | h | h | h | h | h <;> subst h <;> simp [mkRegRecord, objGet]

/- ### Registration claims -/

/-- C4: for every `reg` payload carrying an `SN` value that occurs in no
stored device record, `handleReg` appends exactly one record — the devices
collection grows by exactly one and the appended record's `SN` field equals
the payload's `SN` value. -/
theorem reg_fresh_serial_appends_one (devices : List Obj) (body : Obj) (now : String) (v : JVal)
    (hsn : objGet body "SN" = some v)
    (hfresh : ∀ d ∈ devices, jsStrictEqOpt (objGet d "SN") (objGet body "SN") = false) :
    ∃ r, handleReg devices body false now = .ok (r, devices ++ [mkRegRecord body now]) ∧
      r.status = 200 ∧
      (devices ++ [mkRegRecord body now]).length = devices.length + 1 ∧
      objGet (mkRegRecord body now) "SN" = some v := by
  have hany := any_eq_true_of_objGet_some body "SN" v hsn
  have hfind :
      List.findIdx? (fun d => jsStrictEqOpt (objGet d "SN") (objGet body "SN")) devices = none := by
    rw [List.findIdx?_eq_none_iff]
    intro d hd
    simpa using hfresh d hd
  refine ⟨⟨200, [("ret", .str "reg"), ("result", .bool true), ("cloudtime", .str now),
                 ("nosenduser", .bool true),
                 ("message", .str "Device registered successfully")]⟩, ?_, rfl, by simp, ?_⟩
  · simp [handleReg, requireFields, hany, hfind]
  · rw [objGet_mkRegRecord_sn, hsn]
    rfl

/-- Witness for C4 at a concrete fresh registration. -/
theorem reg_fresh_serial_appends_one_witness :
    ∃ r, handleReg [[("SN", .str "B")]] [("cmd", .str "reg"), ("SN", .str "A")] false "T"
        = .ok (r, [("SN", .str "B")] :: [mkRegRecord [("cmd", .str "reg"), ("SN", .str "A")] "T"]) ∧
      r.status = 200 ∧
      ([("SN", .str "B")] :: [mkRegRecord [("cmd", .str "reg"), ("SN", .str "A")] "T"]).length
        = [[("SN", JVal.str "B")]].length + 1 ∧
      objGet (mkRegRecord [("cmd", .str "reg"), ("SN", .str "A")] "T") "SN" = some (.str "A") := by
  have h := reg_fresh_serial_appends_one [[("SN", .str "B")]]
    [("cmd", .str "reg"), ("SN", .str "A")] "T" (.str "A") rfl
    (by intro d hd; simp at hd; subst hd; rfl)
  simpa using h

/-- C10: the `reg` precondition checks only the presence of the `SN` key.
For every payload in which the key is present — with any value, including
`null` — `handleReg` does not reply 400 but replies 200, the fresh record's
`SN` field equals the raw payload value, and the existing-record lookup is
the first index whose stored `SN` is strictly equal (`===`) to that raw
value, merged by spread when found and appended otherwise. -/
theorem reg_requires_only_sn_key (devices : List Obj) (body : Obj) (now : String) (v : JVal)
    (hsn : objGet body "SN" = some v) :
    ∃ r devices2, handleReg devices body false now = .ok (r, devices2) ∧
      r.status = 200 ∧
      objGet (mkRegRecord body now) "SN" = some v ∧
      devices2 =
        (match List.findIdx? (fun d => jsStrictEqOpt (objGet d "SN") (some v)) devices with
         | some i => devices.set i (jsSpread ((devices.get? i).getD []) (mkRegRecord body now))
         | none => devices ++ [mkRegRecord body now]) := by
  have hany := any_eq_true_of_objGet_some body "SN" v hsn
  have hpred : (fun d => jsStrictEqOpt (objGet d "SN") (objGet body "SN"))
      = (fun d => jsStrictEqOpt (objGet d "SN") (some v)) := by
    funext d
    rw [hsn]
  have hsnrec : objGet (mkRegRecord body now) "SN" = some v := by
    rw [objGet_mkRegRecord_sn, hsn]
    rfl
  rcases hfind : List.findIdx? (fun d => jsStrictEqOpt (objGet d "SN") (some v)) devices with _ | i
  · refine ⟨⟨200, [("ret", .str "reg"), ("result", .bool true), ("cloudtime", .str now),
                   ("nosenduser", .bool true),
                   ("message", .str "Device registered successfully")]⟩,
      devices ++ [mkRegRecord body now], ?_, rfl, hsnrec, by simp [hfind]⟩
    simp [handleReg, requireFields, hany, hpred, hfind]
  · refine ⟨⟨200, [("ret", .str "reg"), ("result", .bool true), ("cloudtime", .str now),
                   ("nosenduser", .bool true),
                   ("message", .str "Device registered successfully")]⟩,
      devices.set i (jsSpread ((devices.get? i).getD []) (mkRegRecord body now)), ?_, rfl,
      hsnrec, by simp [hfind]⟩
    simp [handleReg, requireFields, hany, hpred, hfind]

/-- Witness for C10 with `SN: null` — the key is present, its value is
`null`, and registration still succeeds with `SN: null` stored. -/
theorem reg_requires_only_sn_key_witness :
    ∃ r devices2, handleReg [] [("SN", JVal.null)] false "T" = .ok (r, devices2) ∧
      r.status = 200 ∧
      objGet (mkRegRecord [("SN", JVal.null)] "T") "SN" = some JVal.null ∧
      devices2 =
        (match List.findIdx? (fun d => jsStrictEqOpt (objGet d "SN") (some JVal.null)) [] with
         | some i =>
            List.set ([] : List Obj) i
              (jsSpread ((List.get? ([] : List Obj) i).getD []) (mkRegRecord [("SN", JVal.null)] "T"))
         | none => [] ++ [mkRegRecord [("SN", JVal.null)] "T"]) :=
  reg_requires_only_sn_key [] [("SN", JVal.null)] "T" JVal.null rfl

/-- C1 counterexample: re-registering serial `"A"` with a payload that has
no `Model`/`model` field does NOT preserve the stored `model` value `"X"` —
the merged record's `model` is overwritten with `null`, because the fresh
registration record always carries all six canonical fields.  (The length
is indeed unchanged, but the field-preservation conjunct of the claim fails
at this input.) -/
theorem reg_reregistration_preservation_cex :
    (handleReg [[("SN", JVal.str "A"), ("model", JVal.str "X")]]
        [("cmd", JVal.str "reg"), ("SN", JVal.str "A")] false "T").map
      (fun p => (p.2.length, p.2.map (fun d => objGet d "model")))
      = .ok (1, [some JVal.null])
    ∧ objGet [("SN", JVal.str "A"), ("model", JVal.str "X")] "model" = some (JVal.str "X")
    ∧ objGet [("cmd", JVal.str "reg"), ("SN", JVal.str "A")] "Model" = none
    ∧ objGet [("cmd", JVal.str "reg"), ("SN", JVal.str "A")] "model" = none :=
  ⟨rfl, rfl, rfl, rfl⟩

/-- C1 amended: when the payload's `SN` value matches a stored device (at
the first strictly-equal index), `handleReg` leaves the collection length
unchanged and replaces that record by the shallow spread-merge of the old
record with the freshly built registration record: every key outside the
six canonical registration keys retains its old value, while the six
canonical keys always take the fresh record's values — an alias pair
absent from the payload yields `null` there rather than retaining the old
value. -/
theorem reg_reregistration_merge (devices : List Obj) (body : Obj) (now : String) (v : JVal)
    (i : ℕ) (hsn : objGet body "SN" = some v)
    (hfind : List.findIdx? (fun d => jsStrictEqOpt (objGet d "SN") (some v)) devices = some i) :
    ∃ r, handleReg devices body false now =
        .ok (r, devices.set i (jsSpread ((devices.get? i).getD []) (mkRegRecord body now))) ∧
      r.status = 200 ∧
      (devices.set i (jsSpread ((devices.get? i).getD []) (mkRegRecord body now))).length
        = devices.length ∧
      (∀ k, k ∉ regFieldKeys →
        objGet (jsSpread ((devices.get? i).getD []) (mkRegRecord body now)) k
          = objGet ((devices.get? i).getD []) k) ∧
      (∀ k, k ∈ regFieldKeys →
        objGet (jsSpread ((devices.get? i).getD []) (mkRegRecord body now)) k
          = objGet (mkRegRecord body now) k) := by
  have hany := any_eq_true_of_objGet_some body "SN" v hsn
  have hpred : (fun d => jsStrictEqOpt (objGet d "SN") (objGet body "SN"))
      = (fun d => jsStrictEqOpt (objGet d "SN") (some v)) := by
    funext d
    rw [hsn]
  refine ⟨⟨200, [("ret", .str "reg"), ("result", .bool true), ("cloudtime", .str now),
                 ("nosenduser", .bool true),
                 ("message", .str "Device registered successfully")]⟩, ?_, rfl, by simp, ?_, ?_⟩
  · simp [handleReg, requireFields, hany, hpred, hfind]
  · intro k hk
    rw [objGet_jsSpread _ _ _ (nodupKeysB_mkRegRecord body now),
      objGet_mkRegRecord_of_not_key body now k hk]
  · intro k hk
    rw [objGet_jsSpread _ _ _ (nodupKeysB_mkRegRecord body now)]
    rcases hsome : objGet (mkRegRecord body now) k with _ | w
    · have hs := objGet_mkRegRecord_of_key body now k hk
      rw [hsome] at hs
      simp at hs
    · rfl

/-- Witness for the amended C1 at a concrete re-registration. -/
theorem reg_reregistration_merge_witness :
    ∃ r, handleReg [[("SN", JVal.str "A"), ("model", JVal.str "X")]] [("SN", JVal.str "A")]
        false "T" =
        .ok (r, [[("SN", JVal.str "A"), ("model", JVal.str "X")]].set 0
          (jsSpread (([[("SN", JVal.str "A"), ("model", JVal.str "X")]].get? 0).getD [])
            (mkRegRecord [("SN", JVal.str "A")] "T"))) ∧
      r.status = 200 ∧
      ([[("SN", JVal.str "A"), ("model", JVal.str "X")]].set 0
          (jsSpread (([[("SN", JVal.str "A"), ("model", JVal.str "X")]].get? 0).getD [])
            (mkRegRecord [("SN", JVal.str "A")] "T"))).length
        = [[("SN", JVal.str "A"), ("model", JVal.str "X")]].length ∧
      (∀ k, k ∉ regFieldKeys →
        objGet (jsSpread (([[("SN", JVal.str "A"), ("model", JVal.str "X")]].get? 0).getD [])
            (mkRegRecord [("SN", JVal.str "A")] "T")) k
          = objGet (([[("SN", JVal.str "A"), ("model", JVal.str "X")]].get? 0).getD []) k) ∧
      (∀ k, k ∈ regFieldKeys →
        objGet (jsSpread (([[("SN", JVal.str "A"), ("model", JVal.str "X")]].get? 0).getD [])
            (mkRegRecord [("SN", JVal.str "A")] "T")) k
          = objGet (mkRegRecord [("SN", JVal.str "A")] "T") k) :=
  reg_reregistration_merge [[("SN", JVal.str "A"), ("model", JVal.str "X")]]
    [("SN", JVal.str "A")] "T" (JVal.str "A") 0 rfl rfl

/- ### Heartbeat claims -/

/-- C5: a `checklive` payload whose serial matches no stored record gets a
200 reply with `ret:"checklive"`, `result:true`, `cloudtime` and the
`message` field, and leaves the devices collection unchanged; moreover, for
every payload whatsoever, `handleCheckLive` replies 200 and never changes
the number of stored devices — it never creates a device record. -/
theorem checklive_unknown_serial_never_creates :
    (∀ (devices : List Obj) (body : Obj) (saveFails : Bool) (now : String),
      (∀ d ∈ devices, jsStrictEqOpt (objGet d "SN") (objGet body "SN") = false) →
      handleCheckLive devices body saveFails now =
        (⟨200, [("ret", .str "checklive"), ("result", .bool true), ("cloudtime", .str now),
                ("message", .str "alive")]⟩, devices))
    ∧ (∀ (devices : List Obj) (body : Obj) (saveFails : Bool) (now : String),
        (handleCheckLive devices body saveFails now).1.status = 200 ∧
        (handleCheckLive devices body saveFails now).2.length = devices.length) := by
  constructor
  · intro devices body sf now h
    have hfind :
        List.findIdx? (fun d => jsStrictEqOpt (objGet d "SN") (objGet body "SN")) devices
          = none := by
      rw [List.findIdx?_eq_none_iff]
      intro d hd
      simpa using h d hd
    by_cases ht : jsTruthyOpt (objGet body "SN") <;> simp [handleCheckLive, ht, hfind]
  · intro devices body sf now
    refine ⟨rfl, ?_⟩
    by_cases ht : jsTruthyOpt (objGet body "SN")
    · rcases h2 : List.findIdx? (fun d => jsStrictEqOpt (objGet d "SN") (objGet body "SN")) devices
        with _ | i
      · simp [handleCheckLive, ht, h2]
      · by_cases hsf : sf <;> simp [handleCheckLive, ht, h2, hsf]
    · simp [handleCheckLive, ht]

/-- Witness for C5: heartbeat from unknown serial `"A"` with a failing
save, against one stored device `"B"`. -/
theorem checklive_unknown_serial_never_creates_witness :
    handleCheckLive [[("SN", JVal.str "B")]] [("SN", JVal.str "A")] true "T" =
      (⟨200, [("ret", .str "checklive"), ("result", .bool true), ("cloudtime", .str "T"),
              ("message", .str "alive")]⟩, [[("SN", JVal.str "B")]]) :=
  checklive_unknown_serial_never_creates.1 [[("SN", JVal.str "B")]] [("SN", JVal.str "A")]
    true "T" (by
      intro d hd
      simp only [List.mem_singleton] at hd
      subst hd
      rfl)

/- ### Save-failure claims -/

/-- C6 counterexample: a `checklive` request from a registered device whose
save fails is answered 200 `result:true` — the storage write failure is
swallowed by the handler's internal `try … catch` and never reaches the
router's catch-all. -/
theorem save_failure_swallowed_by_checklive_cex :
    (routeCommand (.obj [("cmd", JVal.str "checklive"), ("SN", JVal.str "A")])
        ⟨[[("SN", JVal.str "A")]], [], []⟩ true "T").1 =
      ⟨200, [("ret", .str "checklive"), ("result", .bool true), ("cloudtime", .str "T"),
             ("message", .str "alive")]⟩ := rfl

theorem handleReg_saveFails_not_ok_200 (devices : List Obj) (body : Obj) (now : String)
    (p : HandlerResult × List Obj) (h : handleReg devices body true now = .ok p) :
    p.1.status = 400 := by
  by_cases hm : (["SN"].filter
      (fun f => ! body.any (fun kv => kv.1 == f)) : List String).isEmpty = true
  · simp [handleReg, requireFields, hm] at h
  · simp [handleReg, requireFields, hm] at h
    rw [← h]

theorem handleSendLog_saveFails_not_ok_200 (logs : List Obj) (body : Obj) (now : String)
    (p : HandlerResult × List Obj) (h : handleSendLog logs body true now = .ok p) :
    p.1.status = 400 := by
  by_cases hc : jsTruthy (firstTruthy [objGet body "logs", objGet body "log", objGet body "data"])
  · by_cases he : (match firstTruthy [objGet body "logs", objGet body "log", objGet body "data"]
        with | .arr xs => xs | v => [v]).isEmpty
    · simp [handleSendLog, hc, he] at h
      rw [← h]
    · rcases hp : processLogs (match firstTruthy
          [objGet body "logs", objGet body "log", objGet body "data"] with
          | .arr xs => xs | v => [v]) body now with e | stored
      · simp [handleSendLog, hc, he, hp] at h
      · simp [handleSendLog, hc, he, hp] at h
  · simp [handleSendLog, hc] at h
    rw [← h]

theorem handleSendUser_saveFails_not_ok_200 (users : List Obj) (body : Obj) (now : String)
    (p : HandlerResult × List Obj) (h : handleSendUser users body true now = .ok p) :
    p.1.status = 400 := by
  by_cases hc : jsTruthy (firstTruthy [objGet body "user", objGet body "users"])
  · rcases hp : processUsers users (match firstTruthy [objGet body "user", objGet body "users"]
        with | .arr xs => xs | v => [v]) body now with e | pr
    · simp [handleSendUser, hc, hp] at h
    · simp [handleSendUser, hc, hp] at h
  · simp [handleSendUser, hc] at h
    rw [← h]

/-- C6 amended: for the persisting commands `reg`, `sendlog` and
`senduser`, a Record Store save failure is never swallowed into a success
response: the request ends 400 (validation failed before any save was
attempted) or 500 (the write failure propagated to the router's catch-all).
The claim as stated is false for `checklive`, whose handler catches its own
save failure and still replies 200. -/
theorem save_failure_propagates_for_persisting_cmds (bo : Obj) (st : ServerState) (now : String)
    (h : cmdNorm ((objGet bo "cmd").getD .null) = "reg"
       ∨ cmdNorm ((objGet bo "cmd").getD .null) = "sendlog"
       ∨ cmdNorm ((objGet bo "cmd").getD .null) = "senduser") :
    (routeCommand (.obj bo) st true now).1.status = 400 ∨
    (routeCommand (.obj bo) st true now).1.status = 500 := by
  by_cases ht : jsTruthyOpt (objGet bo "cmd")
  · rcases h with h | h | h
    · rcases hr : handleReg st.devices bo true now with e | p
      · right
        simp [routeCommand, ht, h, hr]
      · left
        have := handleReg_saveFails_not_ok_200 st.devices bo now p hr
        simp [routeCommand, ht, h, hr, this]
    · rcases hr : handleSendLog st.logs bo true now with e | p
      · right
        simp [routeCommand, ht, h, hr]
      · left
        have := handleSendLog_saveFails_not_ok_200 st.logs bo now p hr
        simp [routeCommand, ht, h, hr, this]
    · rcases hr : handleSendUser st.users bo true now with e | p
      · right
        simp [routeCommand, ht, h, hr]
      · left
        have := handleSendUser_saveFails_not_ok_200 st.users bo now p hr
        simp [routeCommand, ht, h, hr, this]
  · left
    simp [routeCommand, ht]

/-- Witness for the amended C6: a well-formed `sendlog` whose save fails is
answered 500, not 200. -/
theorem save_failure_propagates_for_persisting_cmds_witness :
    (cmdNorm ((objGet [("cmd", JVal.str "sendlog"),
        ("logs", JVal.arr [JVal.obj [("enrollid", JVal.str "7"), ("timestamp", JVal.str "t")]])]
        "cmd").getD .null) = "reg"
      ∨ cmdNorm ((objGet [("cmd", JVal.str "sendlog"),
        ("logs", JVal.arr [JVal.obj [("enrollid", JVal.str "7"), ("timestamp", JVal.str "t")]])]
        "cmd").getD .null) = "sendlog"
      ∨ cmdNorm ((objGet [("cmd", JVal.str "sendlog"),
        ("logs", JVal.arr [JVal.obj [("enrollid", JVal.str "7"), ("timestamp", JVal.str "t")]])]
        "cmd").getD .null) = "senduser")
    ∧ ((routeCommand (.obj [("cmd", JVal.str "sendlog"),
        ("logs", JVal.arr [JVal.obj [("enrollid", JVal.str "7"), ("timestamp", JVal.str "t")]])])
        ⟨[], [], []⟩ true "T").1.status = 400 ∨
      (routeCommand (.obj [("cmd", JVal.str "sendlog"),
        ("logs", JVal.arr [JVal.obj [("enrollid", JVal.str "7"), ("timestamp", JVal.str "t")]])])
        ⟨[], [], []⟩ true "T").1.status = 500) :=
  ⟨Or.inr (Or.inl rfl),
   save_failure_propagates_for_persisting_cmds
     [("cmd", JVal.str "sendlog"),
      ("logs", JVal.arr [JVal.obj [("enrollid", JVal.str "7"), ("timestamp", JVal.str "t")]])]
     ⟨[], [], []⟩ "T" (Or.inr (Or.inl rfl))⟩

/- ### Response shape claims -/

/-- C9 counterexample: the handler-produced 400 reply to `{cmd:"reg"}`
(missing `SN`) has body `{error: …}` only — it contains none of `ret`,
`result`, `cloudtime`. -/
theorem api_response_shape_cex :
    (routeCommand (.obj [("cmd", JVal.str "reg")]) ⟨[], [], []⟩ false "T").1 =
      ⟨400, [("error", JVal.str "Missing required fields: SN")]⟩
    ∧ objGet ((routeCommand (.obj [("cmd", JVal.str "reg")]) ⟨[], [], []⟩ false "T").1.body)
        "ret" = none
    ∧ objGet ((routeCommand (.obj [("cmd", JVal.str "reg")]) ⟨[], [], []⟩ false "T").1.body)
        "result" = none
    ∧ objGet ((routeCommand (.obj [("cmd", JVal.str "reg")]) ⟨[], [], []⟩ false "T").1.body)
        "cloudtime" = none :=
  ⟨rfl, rfl, rfl, rfl⟩

theorem handleReg_body_shape (devices : List Obj) (body : Obj) (sf : Bool) (now : String)
    (p : HandlerResult × List Obj) (h : handleReg devices body sf now = .ok p) :
    (objGet p.1.body "ret" = some (.str "reg")
      ∧ objGet p.1.body "result" = some (.bool true)
      ∧ objGet p.1.body "cloudtime" = some (.str now))
    ∨ (p.1.status = 400 ∧ ∃ msg, p.1.body = [("error", JVal.str msg)]) := by
  by_cases hm : (["SN"].filter
      (fun f => ! body.any (fun kv => kv.1 == f)) : List String).isEmpty = true
  · cases sf with
    | true => simp [handleReg, requireFields, hm] at h
    | false =>
      left
      simp [handleReg, requireFields, hm] at h
      rw [← h]
      exact ⟨rfl, rfl, rfl⟩
  · right
    simp [handleReg, requireFields, hm] at h
    rw [← h]
    exact ⟨rfl, _, rfl⟩

theorem handleSendLog_body_shape (logs : List Obj) (body : Obj) (sf : Bool) (now : String)
    (p : HandlerResult × List Obj) (h : handleSendLog logs body sf now = .ok p) :
    (objGet p.1.body "ret" = some (.str "sendlog")
      ∧ objGet p.1.body "result" = some (.bool true)
      ∧ objGet p.1.body "cloudtime" = some (.str now))
    ∨ (p.1.status = 400 ∧ ∃ msg, p.1.body = [("error", JVal.str msg)]) := by
  by_cases hc : jsTruthy (firstTruthy [objGet body "logs", objGet body "log", objGet body "data"])
  · by_cases he : (match firstTruthy [objGet body "logs", objGet body "log", objGet body "data"]
        with | .arr xs => xs | v => [v]).isEmpty = true
    · right
      simp [handleSendLog, hc, he] at h
      rw [← h]
      exact ⟨rfl, _, rfl⟩
    · rcases hp : processLogs (match firstTruthy
          [objGet body "logs", objGet body "log", objGet body "data"] with
          | .arr xs => xs | v => [v]) body now with e | stored
      · simp [handleSendLog, hc, he, hp] at h
      · cases sf with
        | true => simp [handleSendLog, hc, he, hp] at h
        | false =>
          left
          simp [handleSendLog, hc, he, hp] at h
          rw [← h]
          exact ⟨rfl, rfl, rfl⟩
  · right
    simp [handleSendLog, hc] at h
    rw [← h]
    exact ⟨rfl, _, rfl⟩

theorem handleSendUser_body_shape (users : List Obj) (body : Obj) (sf : Bool) (now : String)
    (p : HandlerResult × List Obj) (h : handleSendUser users body sf now = .ok p) :
    (objGet p.1.body "ret" = some (.str "senduser")
      ∧ objGet p.1.body "result" = some (.bool true)
      ∧ objGet p.1.body "cloudtime" = some (.str now))
    ∨ (p.1.status = 400 ∧ ∃ msg, p.1.body = [("error", JVal.str msg)]) := by
  by_cases hc : jsTruthy (firstTruthy [objGet body "user", objGet body "users"])
  · rcases hp : processUsers users (match firstTruthy [objGet body "user", objGet body "users"]
        with | .arr xs => xs | v => [v]) body now with e | pr
    · simp [handleSendUser, hc, hp] at h
    · cases sf with
      | true => simp [handleSendUser, hc, hp] at h
      | false =>
        left
        simp [handleSendUser, hc, hp] at h
        rw [← h]
        exact ⟨rfl, rfl, rfl⟩
  · right
    simp [handleSendUser, hc] at h
    rw [← h]
    exact ⟨rfl, _, rfl⟩

/-- C9 amended: every `POST /api` response body either contains `ret`,
`result` (a boolean) and `cloudtime` (the server timestamp string) — as all
router-generated replies and all handler success replies do — or it is a
handler-produced 400 whose body is exactly `{error: <message>}`.  The
claim as stated fails on those handler validation replies. -/
theorem api_response_shape (body : JVal) (st : ServerState) (saveFails : Bool) (now : String) :
    (∃ rv b, objGet ((routeCommand body st saveFails now).1.body) "ret" = some rv
      ∧ objGet ((routeCommand body st saveFails now).1.body) "result" = some (.bool b)
      ∧ objGet ((routeCommand body st saveFails now).1.body) "cloudtime" = some (.str now))
    ∨ ((routeCommand body st saveFails now).1.status = 400
      ∧ ∃ msg, (routeCommand body st saveFails now).1.body = [("error", JVal.str msg)]) := by
  match body with
  | .null | .bool _ | .num _ | .str _ =>
    exact Or.inl ⟨.null, false, rfl, rfl, rfl⟩
  | .arr _ =>
    exact Or.inl ⟨.null, false, rfl, rfl, rfl⟩
  | .obj bo =>
    by_cases ht : jsTruthyOpt (objGet bo "cmd")
    case neg =>
      exact Or.inl ⟨.null, false, by simp [routeCommand, ht, routerErrBody, objGet],
        by simp [routeCommand, ht, routerErrBody, objGet],
        by simp [routeCommand, ht, routerErrBody, objGet]⟩
    case pos =>
      by_cases h1 : cmdNorm ((objGet bo "cmd").getD .null) = "reg"
      · rcases hr : handleReg st.devices bo saveFails now with e | p
        · exact Or.inl ⟨.null, false, by simp [routeCommand, ht, h1, hr, internalErrBody, objGet],
            by simp [routeCommand, ht, h1, hr, internalErrBody, objGet],
            by simp [routeCommand, ht, h1, hr, internalErrBody, objGet]⟩
        · have hs := handleReg_body_shape st.devices bo saveFails now p hr
          rcases hs with ⟨ha, hb, hcld⟩ | ⟨hst, msg, hbody⟩
          · exact Or.inl ⟨.str "reg", true, by simp [routeCommand, ht, h1, hr, ha],
              by simp [routeCommand, ht, h1, hr, hb],
              by simp [routeCommand, ht, h1, hr, hcld]⟩
          · exact Or.inr ⟨by simp [routeCommand, ht, h1, hr, hst],
              msg, by simp [routeCommand, ht, h1, hr, hbody]⟩
      · by_cases h2 : cmdNorm ((objGet bo "cmd").getD .null) = "sendlog"
        · rcases hr : handleSendLog st.logs bo saveFails now with e | p
          · exact Or.inl ⟨.null, false,
              by simp [routeCommand, ht, h1, h2, hr, internalErrBody, objGet],
              by simp [routeCommand, ht, h1, h2, hr, internalErrBody, objGet],
              by simp [routeCommand, ht, h1, h2, hr, internalErrBody, objGet]⟩
          · have hs := handleSendLog_body_shape st.logs bo saveFails now p hr
            rcases hs with ⟨ha, hb, hcld⟩ | ⟨hst, msg, hbody⟩
            · exact Or.inl ⟨.str "sendlog", true, by simp [routeCommand, ht, h1, h2, hr, ha],
                by simp [routeCommand, ht, h1, h2, hr, hb],
                by simp [routeCommand, ht, h1, h2, hr, hcld]⟩
            · exact Or.inr ⟨by simp [routeCommand, ht, h1, h2, hr, hst],
                msg, by simp [routeCommand, ht, h1, h2, hr, hbody]⟩
        · by_cases h3 : cmdNorm ((objGet bo "cmd").getD .null) = "checklive"
          · exact Or.inl ⟨.str "checklive", true,
              by simp [routeCommand, ht, h1, h2, h3, handleCheckLive, objGet],
              by simp [routeCommand, ht, h1, h2, h3, handleCheckLive, objGet],
              by simp [routeCommand, ht, h1, h2, h3, handleCheckLive, objGet]⟩
          · by_cases h4 : cmdNorm ((objGet bo "cmd").getD .null) = "senduser"
            · rcases hr : handleSendUser st.users bo saveFails now with e | p
              · exact Or.inl ⟨.null, false,
                  by simp [routeCommand, ht, h1, h2, h3, h4, hr, internalErrBody, objGet],
                  by simp [routeCommand, ht, h1, h2, h3, h4, hr, internalErrBody, objGet],
                  by simp [routeCommand, ht, h1, h2, h3, h4, hr, internalErrBody, objGet]⟩
              · have hs := handleSendUser_body_shape st.users bo saveFails now p hr
                rcases hs with ⟨ha, hb, hcld⟩ | ⟨hst, msg, hbody⟩
                · exact Or.inl ⟨.str "senduser", true,
                    by simp [routeCommand, ht, h1, h2, h3, h4, hr, ha],
                    by simp [routeCommand, ht, h1, h2, h3, h4, hr, hb],
                    by simp [routeCommand, ht, h1, h2, h3, h4, hr, hcld]⟩
                · exact Or.inr ⟨by simp [routeCommand, ht, h1, h2, h3, h4, hr, hst],
                    msg, by simp [routeCommand, ht, h1, h2, h3, h4, hr, hbody]⟩
            · exact Or.inl ⟨.str (cmdNorm ((objGet bo "cmd").getD .null)), false,
                by simp [routeCommand, ht, h1, h2, h3, h4, objGet],
                by simp [routeCommand, ht, h1, h2, h3, h4, objGet],
                by simp [routeCommand, ht, h1, h2, h3, h4, objGet]⟩

/- ### Attendance batch claims -/

theorem filter_not_isEmpty_eq_all (p : String → Bool) (l : List String) :
    (l.filter (fun x => ! p x)).isEmpty = l.all p := by
  induction l with
  | nil => rfl
  | cons x xs ih =>
    cases hx : p x <;> simp [List.filter, hx, ih]

theorem objGet_mkLogEntry_access (lo body : Obj) (now : String) :
    objGet (mkLogEntry lo body now) "access" = some (.num (accessOf lo)) := by
  simp [mkLogEntry, objGet]

theorem objGet_mkLogEntry_temperature (lo body : Obj) (now : String) :
    objGet (mkLogEntry lo body now) "temperature" = some (tempOf lo) := by
  simp [mkLogEntry, objGet]

theorem denyTemp_flag_aux (o : Option PFloat) :
    (match o with
     | none => (1 : ℕ)
     | some (.fin q) => if 38 ≤ q then 0 else 1
     | some .posInf => 0
     | some .negInf => 1)
    = if (match o with
          | some (.fin q) => decide ((38 : ℚ) ≤ q)
          | some .posInf => true
          | some .negInf => false
          | none => false) = true then 0 else 1 := by
  rcases o with _ | pf
  · rfl
  · rcases pf with q | _ | _
    · by_cases hq : (38 : ℚ) ≤ q <;> simp [hq]
    · rfl
    · rfl

theorem specAccessOf_eq_denyTemp (t : JVal) :
    specAccessOf t = if denyTemp t then 0 else 1 := by
  cases t with
  | null => rfl
  | bool b => exact denyTemp_flag_aux (jsParseFloat (JVal.bool b))
  | num q => exact denyTemp_flag_aux (jsParseFloat (JVal.num q))
  | str s => exact denyTemp_flag_aux (jsParseFloat (JVal.str s))
  | arr xs => exact denyTemp_flag_aux (jsParseFloat (JVal.arr xs))
  | obj fs => exact denyTemp_flag_aux (jsParseFloat (JVal.obj fs))

theorem accessOf_eq_specAccessOf (l : Obj) : accessOf l = specAccessOf (tempOf l) :=
  (specAccessOf_eq_denyTemp (tempOf l)).symm

theorem processLogs_mem (entries : List JVal) (body : Obj) (now : String)
    (stored : List Obj) (h : processLogs entries body now = .ok stored) :
    ∀ e ∈ stored, ∃ lo, e = mkLogEntry lo body now := by
  induction entries generalizing stored with
  | nil =>
    simp only [processLogs] at h
    cases h
    simp
  | cons l rest ih =>
    rcases hrf : requireFields l ["enrollid", "timestamp"] with e2 | missing
    · simp [processLogs, hrf] at h
    · by_cases hm : missing.isEmpty = true
      · match l with
        | .obj lo =>
          simp only [processLogs, hrf, hm, if_true] at h
          rcases htail : processLogs rest body now with e3 | tail
          · rw [htail] at h
            simp [Except.map] at h
          · rw [htail] at h
            simp only [Except.map] at h
            cases h
            intro e he
            rcases List.mem_cons.mp he with he2 | he2
            · exact ⟨lo, he2⟩
            · exact ih tail htail e he2
        | .null | .bool _ | .num _ | .str _ =>
          simp [requireFields] at hrf
        | .arr xs =>
          simp only [requireFields, Except.ok.injEq] at hrf
          subst hrf
          simp at hm
      · simp only [processLogs, hrf, hm, if_false] at h
        exact ih stored h

/-- C2: every entry a `sendlog` request appends to the logs collection
carries an `access` flag that is the deterministic temperature function of
its stored temperature value: present, numeric and at least 38.0 gives 0
(deny); absent, non-numeric or below 38.0 gives 1 (allow). -/
theorem sendlog_access_decision (logs : List Obj) (body : Obj) (sf : Bool) (now : String)
    (p : HandlerResult × List Obj) (h : handleSendLog logs body sf now = .ok p) :
    ∀ e ∈ p.2, e ∈ logs ∨
      ∃ t, objGet e "temperature" = some t ∧ objGet e "access" = some (.num (specAccessOf t)) := by
  by_cases hc : jsTruthy (firstTruthy [objGet body "logs", objGet body "log", objGet body "data"])
  · by_cases he : (match firstTruthy [objGet body "logs", objGet body "log", objGet body "data"]
        with | .arr xs => xs | v => [v]).isEmpty = true
    · simp [handleSendLog, hc, he] at h
      have h2 : p.2 = logs := by
        rw [← h]
      intro e hmem
      rw [h2] at hmem
      exact Or.inl hmem
    · rcases hp : processLogs (match firstTruthy
          [objGet body "logs", objGet body "log", objGet body "data"] with
          | .arr xs => xs | v => [v]) body now with e2 | stored
      · simp [handleSendLog, hc, he, hp] at h
      · cases sf with
        | true => simp [handleSendLog, hc, he, hp] at h
        | false =>
          simp [handleSendLog, hc, he, hp] at h
          have h2 : p.2 = logs ++ stored := by
            rw [← h]
          intro e hmem
          rw [h2] at hmem
          rcases List.mem_append.mp hmem with hmem2 | hmem2
          · exact Or.inl hmem2
          · obtain ⟨lo, rfl⟩ := processLogs_mem _ body now stored hp e hmem2
            exact Or.inr ⟨tempOf lo, objGet_mkLogEntry_temperature lo body now, by
              rw [objGet_mkLogEntry_access, accessOf_eq_specAccessOf]⟩
  · simp [handleSendLog, hc] at h
    have h2 : p.2 = logs := by
      rw [← h]
    intro e hmem
    rw [h2] at hmem
    exact Or.inl hmem

/-- Witness for C2 at a concrete feverish entry (39 ≥ 38 ⇒ denied),
instantiated at the single entry the handler appends. -/
theorem sendlog_access_decision_witness :
    mkLogEntry [("enrollid", JVal.str "7"), ("timestamp", JVal.str "t"), ("temp", JVal.num 39)]
        [("cmd", JVal.str "sendlog"),
         ("logs", JVal.arr [JVal.obj [("enrollid", JVal.str "7"), ("timestamp", JVal.str "t"),
           ("temp", JVal.num 39)]])] "T" ∈ ([] : List Obj)
    ∨ ∃ t, objGet (mkLogEntry [("enrollid", JVal.str "7"), ("timestamp", JVal.str "t"),
          ("temp", JVal.num 39)]
        [("cmd", JVal.str "sendlog"),
         ("logs", JVal.arr [JVal.obj [("enrollid", JVal.str "7"), ("timestamp", JVal.str "t"),
           ("temp", JVal.num 39)]])] "T") "temperature" = some t
      ∧ objGet (mkLogEntry [("enrollid", JVal.str "7"), ("timestamp", JVal.str "t"),
          ("temp", JVal.num 39)]
        [("cmd", JVal.str "sendlog"),
         ("logs", JVal.arr [JVal.obj [("enrollid", JVal.str "7"), ("timestamp", JVal.str "t"),
           ("temp", JVal.num 39)]])] "T") "access" = some (.num (specAccessOf t)) :=
  sendlog_access_decision [] [("cmd", JVal.str "sendlog"),
      ("logs", JVal.arr [JVal.obj [("enrollid", JVal.str "7"), ("timestamp", JVal.str "t"),
        ("temp", JVal.num 39)]])] false "T"
    (⟨⟨200, [("ret", .str "sendlog"), ("result", .bool true), ("cloudtime", .str "T"),
        ("log_count", .num 1), ("allowed", .num 0), ("denied", .num (1 - 0)),
        ("message", .str "Logs received")]⟩,
      [mkLogEntry [("enrollid", JVal.str "7"), ("timestamp", JVal.str "t"), ("temp", JVal.num 39)]
        [("cmd", JVal.str "sendlog"),
         ("logs", JVal.arr [JVal.obj [("enrollid", JVal.str "7"), ("timestamp", JVal.str "t"),
           ("temp", JVal.num 39)]])] "T"]⟩ : HandlerResult × List Obj) rfl
    (mkLogEntry [("enrollid", JVal.str "7"), ("timestamp", JVal.str "t"), ("temp", JVal.num 39)]
      [("cmd", JVal.str "sendlog"),
       ("logs", JVal.arr [JVal.obj [("enrollid", JVal.str "7"), ("timestamp", JVal.str "t"),
         ("temp", JVal.num 39)]])] "T") (List.mem_cons_self _ _)

/-- C3 counterexample, two failing inputs: (1) a `sendlog` whose `logs`
array is empty (N = 0 entries, all vacuously well-formed) is answered 400
with a bare error body — not 200 with `log_count` 0; (2) a batch holding
one well-formed entry plus one primitive entry throws (`in` on a
primitive), failing the whole request (500 via the router) and persisting
nothing — the bad entry is not merely excluded. -/
theorem sendlog_batch_cex :
    handleSendLog [] [("cmd", JVal.str "sendlog"), ("logs", JVal.arr [])] false "T"
      = .ok (⟨400, [("error", JVal.str "No log entries provided")]⟩, [])
    ∧ handleSendLog [] [("cmd", JVal.str "sendlog"),
        ("logs", JVal.arr [JVal.obj [("enrollid", JVal.str "7"), ("timestamp", JVal.str "t")],
          JVal.num 5])] false "T" = .error () :=
  ⟨rfl, rfl⟩

theorem processLogs_all_objects (entries : List JVal) (body : Obj) (now : String)
    (hobj : ∀ e ∈ entries, ∃ lo, e = JVal.obj lo) :
    processLogs entries body now =
      .ok ((acceptedLogs entries).map (fun lo => mkLogEntry lo body now)) := by
  induction entries with
  | nil => rfl
  | cons l rest ih =>
    obtain ⟨lo, rfl⟩ := hobj l (List.mem_cons_self l rest)
    have ihh := ih (fun e he => hobj e (List.mem_cons_of_mem _ he))
    have hrf : requireFields (.obj lo) ["enrollid", "timestamp"]
        = .ok (["enrollid", "timestamp"].filter (fun f => ! lo.any (fun kv => kv.1 == f))) := rfl
    by_cases hm : hasLogFields lo = true
    · have hempty : (["enrollid", "timestamp"].filter
          (fun f => ! lo.any (fun kv => kv.1 == f))).isEmpty = true := by
        rw [filter_not_isEmpty_eq_all]
        exact hm
      simp only [processLogs, hrf, hempty, if_true, ihh, Except.map]
      simp [acceptedLogs, hm]
    · have hmf : hasLogFields lo = false := by
        simpa using hm
      have hnemp : (["enrollid", "timestamp"].filter
          (fun f => ! lo.any (fun kv => kv.1 == f))).isEmpty = false := by
        rw [filter_not_isEmpty_eq_all]
        exact hmf
      simp only [processLogs, hrf, hnemp, Bool.false_eq_true, if_false, ihh]
      simp [acceptedLogs, hmf]

theorem acceptedLogs_length_of_all (entries : List JVal)
    (h : ∀ e ∈ entries, ∃ lo, e = JVal.obj lo ∧ hasLogFields lo = true) :
    (acceptedLogs entries).length = entries.length := by
  induction entries with
  | nil => rfl
  | cons l rest ih =>
    obtain ⟨lo, rfl, hfields⟩ := h l (List.mem_cons_self l rest)
    have ihh := ih (fun e he => h e (List.mem_cons_of_mem _ he))
    simp [acceptedLogs, hfields] at ihh ⊢
    simpa [acceptedLogs] using ihh

/-- C3 amended: a `sendlog` batch of at least one entry, all of which are
objects, is processed without failing: it replies 200, appends exactly the
entries that carry both `enrollid` and `timestamp` (in order), reports
their count as `log_count`, and excludes the object entries missing a
required field from both the persisted collection and the count; moreover
if every entry carries both fields, the accepted count equals N, the batch
size.  (Amended from the claim: an empty batch is answered 400 instead,
and a primitive entry fails the whole request with 500 — see the
counterexample.) -/
theorem sendlog_batch_processing (logs : List Obj) (body : Obj) (now : String)
    (hc : jsTruthy (firstTruthy [objGet body "logs", objGet body "log", objGet body "data"])
      = true)
    (hne : logsArrayOf body ≠ [])
    (hobj : ∀ e ∈ logsArrayOf body, ∃ lo, e = JVal.obj lo) :
    (handleSendLog logs body false now =
      .ok (⟨200, [("ret", .str "sendlog"), ("result", .bool true), ("cloudtime", .str now),
             ("log_count", .num ((acceptedLogs (logsArrayOf body)).length)),
             ("allowed", .num ((((acceptedLogs (logsArrayOf body)).map
                (fun lo => mkLogEntry lo body now)).filter
                (fun e => jsStrictEqOpt (objGet e "access") (some (.num 1)))).length)),
             ("denied", .num (((acceptedLogs (logsArrayOf body)).length : ℚ)
               - ((((acceptedLogs (logsArrayOf body)).map
                  (fun lo => mkLogEntry lo body now)).filter
                  (fun e => jsStrictEqOpt (objGet e "access") (some (.num 1)))).length : ℚ))),
             ("message", .str "Logs received")]⟩,
        logs ++ (acceptedLogs (logsArrayOf body)).map (fun lo => mkLogEntry lo body now)))
    ∧ ((∀ e ∈ logsArrayOf body, ∃ lo, e = JVal.obj lo ∧ hasLogFields lo = true) →
        (acceptedLogs (logsArrayOf body)).length = (logsArrayOf body).length) := by
  constructor
  · have hp := processLogs_all_objects (logsArrayOf body) body now hobj
    have hemp : (logsArrayOf body).isEmpty = false := by
      cases hl : logsArrayOf body with
      | nil => exact absurd hl hne
      | cons a l => rfl
    unfold logsArrayOf at hp hemp
    simp [handleSendLog, logsArrayOf, hc, hemp, hp, List.length_map]
  · intro hall
    exact acceptedLogs_length_of_all _ hall

/-- Witness for the amended C3: a batch of two object entries, one carrying
both fields and one missing `timestamp`. -/
theorem sendlog_batch_processing_witness :
    (handleSendLog [] [("cmd", JVal.str "sendlog"), ("logs", JVal.arr [JVal.obj [("enrollid", JVal.str "7"), ("timestamp", JVal.str "t")], JVal.obj [("enrollid", JVal.str "8")]])] false "T" =
      .ok (⟨200, [("ret", .str "sendlog"), ("result", .bool true), ("cloudtime", .str "T"),
             ("log_count", .num ((acceptedLogs (logsArrayOf [("cmd", JVal.str "sendlog"), ("logs", JVal.arr [JVal.obj [("enrollid", JVal.str "7"), ("timestamp", JVal.str "t")], JVal.obj [("enrollid", JVal.str "8")]])])).length)),
             ("allowed", .num ((((acceptedLogs (logsArrayOf [("cmd", JVal.str "sendlog"), ("logs", JVal.arr [JVal.obj [("enrollid", JVal.str "7"), ("timestamp", JVal.str "t")], JVal.obj [("enrollid", JVal.str "8")]])])).map
                (fun lo => mkLogEntry lo [("cmd", JVal.str "sendlog"), ("logs", JVal.arr [JVal.obj [("enrollid", JVal.str "7"), ("timestamp", JVal.str "t")], JVal.obj [("enrollid", JVal.str "8")]])] "T")).filter
                (fun e => jsStrictEqOpt (objGet e "access") (some (.num 1)))).length)),
             ("denied", .num (((acceptedLogs (logsArrayOf [("cmd", JVal.str "sendlog"), ("logs", JVal.arr [JVal.obj [("enrollid", JVal.str "7"), ("timestamp", JVal.str "t")], JVal.obj [("enrollid", JVal.str "8")]])])).length : ℚ)
               - ((((acceptedLogs (logsArrayOf [("cmd", JVal.str "sendlog"), ("logs", JVal.arr [JVal.obj [("enrollid", JVal.str "7"), ("timestamp", JVal.str "t")], JVal.obj [("enrollid", JVal.str "8")]])])).map
                  (fun lo => mkLogEntry lo [("cmd", JVal.str "sendlog"), ("logs", JVal.arr [JVal.obj [("enrollid", JVal.str "7"), ("timestamp", JVal.str "t")], JVal.obj [("enrollid", JVal.str "8")]])] "T")).filter
                  (fun e => jsStrictEqOpt (objGet e "access") (some (.num 1)))).length : ℚ))),
             ("message", .str "Logs received")]⟩,
        [] ++ (acceptedLogs (logsArrayOf [("cmd", JVal.str "sendlog"), ("logs", JVal.arr [JVal.obj [("enrollid", JVal.str "7"), ("timestamp", JVal.str "t")], JVal.obj [("enrollid", JVal.str "8")]])])).map (fun lo => mkLogEntry lo [("cmd", JVal.str "sendlog"), ("logs", JVal.arr [JVal.obj [("enrollid", JVal.str "7"), ("timestamp", JVal.str "t")], JVal.obj [("enrollid", JVal.str "8")]])] "T")))
    ∧ ((∀ e ∈ logsArrayOf [("cmd", JVal.str "sendlog"), ("logs", JVal.arr [JVal.obj [("enrollid", JVal.str "7"), ("timestamp", JVal.str "t")], JVal.obj [("enrollid", JVal.str "8")]])], ∃ lo, e = JVal.obj lo ∧ hasLogFields lo = true) →
        (acceptedLogs (logsArrayOf [("cmd", JVal.str "sendlog"), ("logs", JVal.arr [JVal.obj [("enrollid", JVal.str "7"), ("timestamp", JVal.str "t")], JVal.obj [("enrollid", JVal.str "8")]])])).length = (logsArrayOf [("cmd", JVal.str "sendlog"), ("logs", JVal.arr [JVal.obj [("enrollid", JVal.str "7"), ("timestamp", JVal.str "t")], JVal.obj [("enrollid", JVal.str "8")]])]).length) :=
  sendlog_batch_processing [] [("cmd", JVal.str "sendlog"), ("logs", JVal.arr [JVal.obj [("enrollid", JVal.str "7"), ("timestamp", JVal.str "t")], JVal.obj [("enrollid", JVal.str "8")]])] "T" rfl
    (by
      intro h
      exact List.noConfusion h)
    (by
      intro e he
      have hred : logsArrayOf [("cmd", JVal.str "sendlog"), ("logs", JVal.arr [JVal.obj [("enrollid", JVal.str "7"), ("timestamp", JVal.str "t")], JVal.obj [("enrollid", JVal.str "8")]])]
          = [JVal.obj [("enrollid", JVal.str "7"), ("timestamp", JVal.str "t")],
             JVal.obj [("enrollid", JVal.str "8")]] := rfl
      rw [hred] at he
      rcases List.mem_cons.mp he with h1 | h1
      · exact ⟨[("enrollid", JVal.str "7"), ("timestamp", JVal.str "t")], h1⟩
      · rcases List.mem_cons.mp h1 with h2 | h2
        · exact ⟨[("enrollid", JVal.str "8")], h2⟩
        · exact absurd h2 (List.not_mem_nil e))

/- ### Record store claims -/

/-- C7: the Record Store load is a total function — it never raises to its
caller — and it returns the supplied default (the empty sequence at every
call site) when the file is missing, when its content is empty, and when
its content does not parse as JSON. -/
theorem readJsonSafe_never_raises (d : JVal) :
    readJsonSafe .missing d = d
    ∧ readJsonSafe (.content "") d = d
    ∧ (∀ s, jsonParse s = none → readJsonSafe (.content s) d = d) := by
  refine ⟨rfl, rfl, ?_⟩
  intro s hp
  by_cases hs : s = ""
  · subst hs
    rfl
  · simp [readJsonSafe, hs, hp]

/-- Witness for C7: an unparseable file content (a lone opening brace)
loads as the empty collection. -/
theorem readJsonSafe_never_raises_witness :
    jsonParse "\x7b" = none ∧ readJsonSafe (.content "\x7b") (JVal.arr []) = JVal.arr [] :=
  ⟨rfl, (readJsonSafe_never_raises (JVal.arr [])).2.2 "\x7b" rfl⟩

/- ### Digit string lemmas -/

theorem charOfNat_toNat (n : ℕ) (h : n < 55296) : (Char.ofNat n).toNat = n := by
  unfold Char.ofNat
  split
  · rfl
  · rename_i hval
    exact absurd (Or.inl h) hval

theorem charOfNat_of_toNat (c : Char) : Char.ofNat c.toNat = c := by
  unfold Char.ofNat
  split
  · exact Char.eq_of_val_eq (UInt32.ext rfl)
  · rename_i hval
    exact absurd c.valid hval

theorem digitChar_toNat (d : ℕ) (h : d < 10) : (digitChar d).toNat = 48 + d :=
  charOfNat_toNat (48 + d) (by omega)

theorem digitChar_isDigit (d : ℕ) (h : d < 10) : (digitChar d).isDigit = true := by
  have ht := digitChar_toNat d h
  have hvt : (digitChar d).val.toNat = (digitChar d).toNat := rfl
  simp only [Char.isDigit, ge_iff_le, Bool.and_eq_true, decide_eq_true_eq]
  constructor
  · show (48 : UInt32).toNat ≤ (digitChar d).val.toNat
    have h48 : (48 : UInt32).toNat = 48 := rfl
    omega
  · show (digitChar d).val.toNat ≤ (57 : UInt32).toNat
    have h57 : (57 : UInt32).toNat = 57 := rfl
    omega

theorem digitChar_ne_zero_char (d : ℕ) (hd : d < 10) (h : 1 ≤ d) : digitChar d ≠ '0' := by
  intro he
  have h2 := congrArg Char.toNat he
  rw [digitChar_toNat d hd] at h2
  have h3 : (48 : ℕ) + d = 48 := by simpa using h2
  omega

theorem isDigit_toNat (c : Char) (h : c.isDigit = true) : 48 ≤ c.toNat ∧ c.toNat ≤ 57 := by
  simp only [Char.isDigit, Bool.and_eq_true, decide_eq_true_eq] at h
  obtain ⟨h1, h2⟩ := h
  constructor
  · exact h1
  · exact h2

theorem digitsVal_foldl (a : ℕ) (l : List Char) :
    l.foldl (fun x c => x * 10 + (c.toNat - 48)) a = a * 10 ^ l.length + digitsVal l := by
  induction l generalizing a with
  | nil => simp [digitsVal]
  | cons c t ih =>
    show t.foldl _ (a * 10 + (c.toNat - 48)) = _
    rw [ih (a * 10 + (c.toNat - 48))]
    have h2 : digitsVal (c :: t) = (c.toNat - 48) * 10 ^ t.length + digitsVal t := by
      show t.foldl _ (0 * 10 + (c.toNat - 48)) = _
      rw [ih (0 * 10 + (c.toNat - 48))]
      ring
    rw [h2]
    simp [List.length_cons, pow_succ]
    ring

theorem digitsVal_append (l1 l2 : List Char) :
    digitsVal (l1 ++ l2) = digitsVal l1 * 10 ^ l2.length + digitsVal l2 := by
  unfold digitsVal
  rw [List.foldl_append]
  exact digitsVal_foldl _ l2

theorem digitsVal_replicate_zero (j : ℕ) : digitsVal (List.replicate j '0') = 0 := by
  induction j with
  | zero => rfl
  | succ n ih =>
    show digitsVal ('0' :: List.replicate n '0') = 0
    unfold digitsVal at ih ⊢
    simpa using ih

theorem digitsVal_zero_pad (j : ℕ) (l : List Char) :
    digitsVal (List.replicate j '0' ++ l) = digitsVal l := by
  rw [digitsVal_append, digitsVal_replicate_zero]
  simp

theorem natDigitsAux_sound (fuel : ℕ) :
    1 ≤ fuel → ∀ n, n < 10 ^ fuel →
      digitsVal (natDigitsAux fuel n) = n
      ∧ natDigitsAux fuel n ≠ []
      ∧ (∀ c ∈ natDigitsAux fuel n, c.isDigit = true)
      ∧ (1 ≤ n → (natDigitsAux fuel n).headI ≠ '0') := by
  induction fuel with
  | zero => omega
  | succ f ih =>
    intro _ n hn
    by_cases h10 : n < 10
    · refine ⟨?_, by simp [natDigitsAux, h10], ?_, ?_⟩
      · simp [natDigitsAux, h10, digitsVal, digitChar_toNat n h10]
      · intro c hc
        simp [natDigitsAux, h10] at hc
        subst hc
        exact digitChar_isDigit n h10
      · intro h1
        simp [natDigitsAux, h10]
        exact digitChar_ne_zero_char n h10 h1
    · have hf : 1 ≤ f := by
        by_contra hc
        have hf0 : f = 0 := by omega
        subst hf0
        simp at hn
        omega
      have hdiv : n / 10 < 10 ^ f := by
        rw [Nat.div_lt_iff_lt_mul (by norm_num)]
        calc n < 10 ^ (f + 1) := hn
        _ = 10 ^ f * 10 := by rw [pow_succ]
      obtain ⟨ihv, ihne, ihd, ihh⟩ := ih hf (n / 10) hdiv
      have hstep : natDigitsAux (f + 1) n
          = natDigitsAux f (n / 10) ++ [digitChar (n % 10)] := by
        simp [natDigitsAux, h10]
      refine ⟨?_, ?_, ?_, ?_⟩
      · rw [hstep, digitsVal_append]
        have hm : n % 10 < 10 := Nat.mod_lt n (by norm_num)
        have hsing : digitsVal [digitChar (n % 10)] = (digitChar (n % 10)).toNat - 48 := by
          show 0 * 10 + ((digitChar (n % 10)).toNat - 48) = _
          omega
        have hlen : ([digitChar (n % 10)] : List Char).length = 1 := rfl
        rw [hsing, hlen, digitChar_toNat _ hm, ihv, pow_one]
        omega
      · rw [hstep]
        simp
      · intro c hc
        rw [hstep] at hc
        rcases List.mem_append.mp hc with hc2 | hc2
        · exact ihd c hc2
        · simp at hc2
          subst hc2
          exact digitChar_isDigit _ (Nat.mod_lt n (by norm_num))
      · intro _
        rw [hstep]
        rcases haux : natDigitsAux f (n / 10) with _ | ⟨c, cs⟩
        · exact absurd haux ihne
        · have hh := ihh (by
            have : 10 ≤ n := by omega
            omega)
          rw [haux] at hh
          simpa using hh

theorem natDigits_sound (n : ℕ) :
    digitsVal (natDigits n) = n
    ∧ natDigits n ≠ []
    ∧ (∀ c ∈ natDigits n, c.isDigit = true)
    ∧ (1 ≤ n → (natDigits n).headI ≠ '0') := by
  have hlt : n < 10 ^ (n + 1) := by
    calc n < 10 ^ n := Nat.lt_pow_self (by norm_num) n
    _ ≤ 10 ^ (n + 1) := Nat.pow_le_pow_right (by norm_num) (Nat.le_succ n)
  exact natDigitsAux_sound (n + 1) (by omega) n hlt

/- ### Prefix scanning lemmas -/

theorem takeWhile_all_append (p : Char → Bool) (l rest : List Char)
    (hl : ∀ c ∈ l, p c = true) (hr : ∀ c, rest.head? = some c → p c = false) :
    (l ++ rest).takeWhile p = l ∧ (l ++ rest).dropWhile p = rest := by
  induction l with
  | nil =>
    cases rest with
    | nil => exact ⟨rfl, rfl⟩
    | cons c t =>
      have := hr c rfl
      simp [List.takeWhile, List.dropWhile, this]
  | cons c t ih =>
    have hc := hl c (List.mem_cons_self c t)
    have iht := ih (fun x hx => hl x (List.mem_cons_of_mem _ hx))
    simp [List.takeWhile, List.dropWhile, hc, iht.1, iht.2]

theorem dropTrailingZeros_decomp (l : List Char) :
    ∃ j, l = dropTrailingZeros l ++ List.replicate j '0' := by
  refine ⟨(l.reverse.takeWhile (fun c => c == '0')).length, ?_⟩
  have h := List.takeWhile_append_dropWhile (p := fun c => c == '0') (l := l.reverse)
  have hrep : l.reverse.takeWhile (fun c => c == '0')
      = List.replicate (l.reverse.takeWhile (fun c => c == '0')).length '0' := by
    rw [List.eq_replicate_iff]
    refine ⟨rfl, ?_⟩
    intro b hb
    have := List.mem_takeWhile_imp hb
    simpa using this
  calc l = l.reverse.reverse := (List.reverse_reverse l).symm
  _ = (l.reverse.takeWhile (fun c => c == '0') ++ l.reverse.dropWhile (fun c => c == '0')).reverse
      := by rw [h]
  _ = dropTrailingZeros l ++ (l.reverse.takeWhile (fun c => c == '0')).reverse := by
      rw [List.reverse_append]
      rfl
  _ = dropTrailingZeros l ++ List.replicate (l.reverse.takeWhile (fun c => c == '0')).length '0'
      := by
      congr 1
      conv_lhs => rw [hrep]
      rw [List.reverse_replicate]

theorem mem_dropTrailingZeros (l : List Char) (c : Char) (h : c ∈ dropTrailingZeros l) :
    c ∈ l := by
  unfold dropTrailingZeros at h
  rw [List.mem_reverse] at h
  have hs : c ∈ l.reverse := (List.dropWhile_sublist _).subset h
  rwa [List.mem_reverse] at hs

theorem digitsVal_lower_bound (c : Char) (t : List Char)
    (hd : c.isDigit = true) (hz : c ≠ '0') :
    10 ^ t.length ≤ digitsVal (c :: t) := by
  have hval : digitsVal (c :: t) = (c.toNat - 48) * 10 ^ t.length + digitsVal t := by
    show t.foldl _ (0 * 10 + (c.toNat - 48)) = _
    rw [digitsVal_foldl]
    ring
  have hge := (isDigit_toNat c hd).1
  have hne : c.toNat ≠ 48 := by
    intro he
    apply hz
    have : c = Char.ofNat 48 := by
      rw [← he]
      exact (charOfNat_of_toNat c).symm
    rw [this]
  have h1 : 1 ≤ c.toNat - 48 := by omega
  calc 10 ^ t.length = 1 * 10 ^ t.length := (one_mul _).symm
  _ ≤ (c.toNat - 48) * 10 ^ t.length := Nat.mul_le_mul_right _ h1
  _ ≤ digitsVal (c :: t) := by omega

theorem natDigits_length_le (n k : ℕ) (hk : 1 ≤ k) (hn : n < 10 ^ k) :
    (natDigits n).length ≤ k := by
  obtain ⟨hval, hne, hdig, hhead⟩ := natDigits_sound n
  by_cases h0 : n = 0
  · subst h0
    show (natDigitsAux 1 0).length ≤ k
    simp [natDigitsAux]
    omega
  · rcases hl : natDigits n with _ | ⟨c, t⟩
    · exact absurd hl hne
    · have hc : c.isDigit = true := hdig c (by rw [hl]; exact List.mem_cons_self c t)
      have hcz : c ≠ '0' := by
        have := hhead (by omega)
        rw [hl] at this
        simpa using this
      have hlb := digitsVal_lower_bound c t hc hcz
      rw [← hl, hval] at hlb
      have hpow : 10 ^ t.length < 10 ^ k := lt_of_le_of_lt hlb hn
      have hlen : t.length < k := by
        by_contra hcon
        have hge : 10 ^ k ≤ 10 ^ t.length :=
          Nat.pow_le_pow_right (by norm_num) (by omega)
        omega
      simp only [List.length_cons]
      omega

/- ### Decimal printing reconstruction -/

theorem decimal_reconstruct (p : ℚ) (hp : 0 ≤ p) (hden : 10 ^ p.den % p.den = 0)
    (L j dv I : ℕ)
    (hMsplit : I * 10 ^ p.den + dv * 10 ^ j = p.num.natAbs * (10 ^ p.den / p.den))
    (hLj : L + j = p.den) :
    (I : ℚ) + (dv : ℚ) / (10 : ℚ) ^ L = p := by
  have hden_pos : 0 < p.den := p.pos
  have hden_ne : ((p.den : ℕ) : ℚ) ≠ 0 := Nat.cast_ne_zero.mpr (by omega)
  have hdvd : p.den ∣ 10 ^ p.den := Nat.dvd_of_mod_eq_zero hden
  have hM : (p.num.natAbs * (10 ^ p.den / p.den)) * p.den = p.num.natAbs * 10 ^ p.den := by
    rw [mul_assoc, Nat.div_mul_cancel hdvd]
  have hnum_abs : ((p.num.natAbs : ℤ) : ℚ) = (p.num : ℚ) := by
    rw [Int.natAbs_of_nonneg (Rat.num_nonneg.mpr hp)]
  have hnum_den : (p.num : ℚ) = p * (p.den : ℚ) := by
    have h3 := Rat.num_div_den p
    exact (div_eq_iff hden_ne).mp h3
  have hM_q : ((p.num.natAbs : ℕ) : ℚ) * (((10 ^ p.den / p.den : ℕ)) : ℚ) * ((p.den : ℕ) : ℚ)
      = p * (10 : ℚ) ^ p.den * ((p.den : ℕ) : ℚ) := by
    have h1 : ((p.num.natAbs * (10 ^ p.den / p.den) * p.den : ℕ) : ℚ)
        = ((p.num.natAbs * 10 ^ p.den : ℕ) : ℚ) := by
      exact_mod_cast congrArg (Nat.cast : ℕ → ℚ) hM
    push_cast at h1
    have h2 : ((p.num.natAbs : ℕ) : ℚ) = (p.num : ℚ) := by
      rw [Int.cast_natAbs]
      exact_mod_cast abs_of_nonneg (Rat.num_nonneg.mpr hp)
    rw [h2] at h1 ⊢
    rw [hnum_den] at h1 ⊢
    ring_nf
    ring_nf at h1
    linarith [h1]
  have hMc : (I : ℚ) * 10 ^ p.den + (dv : ℚ) * 10 ^ j
      = p * (10 : ℚ) ^ p.den := by
    have h1 : ((I * 10 ^ p.den + dv * 10 ^ j : ℕ) : ℚ)
        = ((p.num.natAbs * (10 ^ p.den / p.den) : ℕ) : ℚ) := by
      exact_mod_cast congrArg (Nat.cast : ℕ → ℚ) hMsplit
    push_cast at h1
    rw [h1]
    have := mul_right_cancel₀ hden_ne hM_q
    linarith [this]
  have h10 : (10 : ℚ) ^ p.den = 10 ^ L * 10 ^ j := by
    rw [← hLj, pow_add]
  rw [h10] at hMc
  have h10L : (10 : ℚ) ^ L ≠ 0 := by positivity
  have h10j : (10 : ℚ) ^ j ≠ 0 := by positivity
  have hfin : ((I : ℚ) * 10 ^ L + (dv : ℚ)) * 10 ^ j = (p * 10 ^ L) * 10 ^ j := by
    ring_nf
    ring_nf at hMc
    linarith [hMc]
  have hcancel := mul_right_cancel₀ h10j hfin
  field_simp
  linarith [hcancel]

theorem parseNumFinish_no_exp (neg : Bool) (ids fds : List Char) (rest : List Char)
    (hrest : ∀ c, rest.head? = some c → c ≠ 'e' ∧ c ≠ 'E') :
    parseNumFinish neg ids fds rest = some
      ((if neg then -((digitsVal ids : ℚ) + (digitsVal fds : ℚ) / (10 : ℚ) ^ fds.length)
        else (digitsVal ids : ℚ) + (digitsVal fds : ℚ) / (10 : ℚ) ^ fds.length), rest) := by
  rcases rest with _ | ⟨c, t⟩
  · rfl
  · have hc := hrest c rfl
    simp only [parseNumFinish]
    rw [if_neg]
    rintro (h | h)
    · exact hc.1 h
    · exact hc.2 h

theorem parseNumBody_printQAbs (p : ℚ) (hp : 0 ≤ p) (hden : 10 ^ p.den % p.den = 0)
    (neg : Bool) (rest : List Char)
    (hrest : ∀ c, rest.head? = some c → c.isDigit = false ∧ c ≠ '.' ∧ c ≠ 'e' ∧ c ≠ 'E') :
    parseNumBody neg (printQAbs p ++ rest) = some (if neg then -p else p, rest) := by
  obtain ⟨hIval, hIne, hIdig, hIhead⟩ :=
    natDigits_sound (p.num.natAbs * (10 ^ p.den / p.den) / 10 ^ p.den)
  obtain ⟨hFval, hFne, hFdig, hFhead⟩ :=
    natDigits_sound (p.num.natAbs * (10 ^ p.den / p.den) % 10 ^ p.den)
  set M := p.num.natAbs * (10 ^ p.den / p.den) with hMdef
  set I := M / 10 ^ p.den with hIdef
  set F := M % 10 ^ p.den with hFdef
  set NI := natDigits I with hNIdef
  set NF := natDigits F with hNFdef
  set base := List.replicate (p.den - NF.length) '0' ++ NF with hbasedef
  set fds := dropTrailingZeros base with hfdsdef
  have hprint : printQAbs p = if fds.isEmpty then NI else NI ++ '.' :: fds := by
    simp only [printQAbs, hden, if_true, hMdef, hIdef, hFdef, hNIdef, hNFdef, hbasedef, hfdsdef]
  have hbase_digits : ∀ c ∈ base, c.isDigit = true := by
    intro c hc
    rcases List.mem_append.mp hc with hc2 | hc2
    · have := List.eq_of_mem_replicate hc2
      subst this
      rfl
    · exact hFdig c hc2
  have hfds_digits : ∀ c ∈ fds, c.isDigit = true :=
    fun c hc => hbase_digits c (mem_dropTrailingZeros _ _ hc)
  obtain ⟨j, hdecomp⟩ := dropTrailingZeros_decomp base
  rw [← hfdsdef] at hdecomp
  have hFlt : F < 10 ^ p.den := Nat.mod_lt _ (pow_pos (by norm_num) _)
  have hFlen : NF.length ≤ p.den := natDigits_length_le F p.den p.pos hFlt
  have hbase_len : base.length = p.den := by
    rw [hbasedef, List.length_append, List.length_replicate]
    omega
  have hlen_sum : fds.length + j = p.den := by
    have hl := congrArg List.length hdecomp
    rw [hbase_len, List.length_append, List.length_replicate] at hl
    omega
  have hFsplit : digitsVal fds * 10 ^ j = F := by
    have h1 : digitsVal base = F := by
      rw [hbasedef, digitsVal_zero_pad, hNFdef, hFval]
    have h2 : digitsVal base = digitsVal fds * 10 ^ j + 0 := by
      conv_lhs => rw [hdecomp]
      rw [digitsVal_append, digitsVal_replicate_zero, List.length_replicate]
    omega
  have hMsplit : I * 10 ^ p.den + digitsVal fds * 10 ^ j = M := by
    rw [hFsplit, hIdef, hFdef, Nat.mul_comm]
    exact Nat.div_add_mod M (10 ^ p.den)
  have hlz : ¬(1 < NI.length ∧ NI.headI = '0') := by
    rintro ⟨hl, hh⟩
    rcases Nat.eq_zero_or_pos I with h0 | h1
    · have : NI = ['0'] := by
        rw [hNIdef, h0]
        rfl
      rw [this] at hl
      simp at hl
    · exact hIhead h1 hh
  have hIemp : NI.isEmpty = false := by
    rcases hni : NI with _ | ⟨c, t⟩
    · exact absurd hni hIne
    · rfl
  by_cases hfe : fds.isEmpty = true
  · -- no fractional part: F = 0 and the printed form is just the integer digits
    have hfds_nil : fds = [] := List.isEmpty_iff.mp hfe
    have hF0 : F = 0 := by
      rw [hfds_nil] at hFsplit
      simpa [digitsVal] using hFsplit.symm
    have hMsplit0 : I * 10 ^ p.den + 0 * 10 ^ j = M := by
      rw [hfds_nil] at hMsplit
      simpa [digitsVal] using hMsplit
    have hj : (0 : ℕ) + j = p.den := by
      rw [hfds_nil] at hlen_sum
      simpa using hlen_sum
    have hval := decimal_reconstruct p hp hden 0 j 0 I hMsplit0 hj
    rw [hprint, if_pos hfe]
    have htw := takeWhile_all_append Char.isDigit NI rest hIdig
      (fun c hc => (hrest c hc).1)
    simp only [parseNumBody, htw.1, htw.2, hIemp, Bool.false_eq_true, if_false, hlz]
    have hfin := parseNumFinish_no_exp neg NI [] rest
      (fun c hc => ⟨(hrest c hc).2.2.1, (hrest c hc).2.2.2⟩)
    have hX : (digitsVal NI : ℚ)
        + (digitsVal ([] : List Char) : ℚ) / (10 : ℚ) ^ ([] : List Char).length = p := by
      rw [hIval]
      simpa [digitsVal] using hval
    rcases hr : rest with _ | ⟨c, t⟩
    · rw [hr] at hfin
      rw [hfin, hX]
    · have hcdot := (hrest c (by rw [hr]; rfl)).2.1
      rw [hr] at hfin
      split
      · rename_i heq
        rw [List.cons.injEq] at heq
        exact absurd heq.1 hcdot
      · rw [hfin, hX]
  · -- fractional part present
    have hfne : fds ≠ [] := by
      intro hnil
      rw [hnil] at hfe
      exact hfe rfl
    have hval := decimal_reconstruct p hp hden fds.length j (digitsVal fds) I hMsplit hlen_sum
    rw [hprint, if_neg hfe]
    have hdot_head : ∀ c, ('.' :: (fds ++ rest)).head? = some c → Char.isDigit c = false := by
      intro c hc
      injection hc with hc
      rw [← hc]
      rfl
    have htw := takeWhile_all_append Char.isDigit NI ('.' :: (fds ++ rest)) hIdig hdot_head
    have hshape : NI ++ '.' :: fds ++ rest = NI ++ ('.' :: (fds ++ rest)) := by
      simp
    rw [hshape]
    simp only [parseNumBody, htw.1, htw.2, hIemp, Bool.false_eq_true, if_false]
    rw [if_neg hlz]
    have htwf := takeWhile_all_append Char.isDigit fds rest hfds_digits
      (fun c hc => (hrest c hc).1)
    simp only [htwf.1, htwf.2]
    have hfemp : fds.isEmpty = false := by
      rcases hfx : fds with _ | ⟨c, t⟩
      · exact absurd hfx hfne
      · rfl
    simp only [hfemp, Bool.false_eq_true, if_false]
    have hfin := parseNumFinish_no_exp neg NI fds rest
      (fun c hc => ⟨(hrest c hc).2.2.1, (hrest c hc).2.2.2⟩)
    rw [hfin]
    have hX : (digitsVal NI : ℚ) + (digitsVal fds : ℚ) / (10 : ℚ) ^ fds.length = p := by
      rw [hIval]
      exact hval
    rw [hX]

theorem printQAbs_head (q : ℚ) : ∃ c t, printQAbs q = c :: t ∧ c.isDigit = true := by
  obtain ⟨_, hne, hdig, _⟩ :=
    natDigits_sound (q.num.natAbs * (10 ^ q.den / q.den) / 10 ^ q.den)
  unfold printQAbs
  by_cases h : 10 ^ q.den % q.den = 0
  · simp only [h, if_true]
    rcases hni : natDigits (q.num.natAbs * (10 ^ q.den / q.den) / 10 ^ q.den) with _ | ⟨c, t⟩
    · exact absurd hni hne
    · have hc : c.isDigit = true := hdig c (by rw [hni]; exact List.mem_cons_self c t)
      split
      · exact ⟨c, t, rfl, hc⟩
      · exact ⟨c, t ++ '.' :: _, rfl, hc⟩
  · simp only [h, Bool.false_eq_true, if_false]
    exact ⟨'0', [], rfl, rfl⟩

theorem parseNumber_printQ (q : ℚ) (hden : 10 ^ q.den % q.den = 0) (rest : List Char)
    (hrest : ∀ c, rest.head? = some c → c.isDigit = false ∧ c ≠ '.' ∧ c ≠ 'e' ∧ c ≠ 'E') :
    parseNumber (printQ q ++ rest) = some (q, rest) := by
  by_cases hq : q < 0
  · have hprint : printQ q = '-' :: printQAbs (-q) := by
      simp [printQ, hq]
    rw [hprint]
    have hneg : (0 : ℚ) ≤ -q := by linarith
    have hdn : 10 ^ (-q).den % (-q).den = 0 := by
      rw [Rat.neg_den]
      exact hden
    have hbody := parseNumBody_printQAbs (-q) hneg hdn true rest hrest
    show parseNumBody true (printQAbs (-q) ++ rest) = _
    rw [hbody]
    simp
  · have h0 : (0 : ℚ) ≤ q := le_of_not_lt hq
    have hprint : printQ q = printQAbs q := by
      simp [printQ, hq]
    rw [hprint]
    obtain ⟨c, t, hct, hcd⟩ := printQAbs_head q
    have hcm : c ≠ '-' := by
      intro he
      rw [he] at hcd
      exact absurd hcd (by decide)
    rw [hct, List.cons_append]
    show (match c :: (t ++ rest) with
      | '-' :: r => parseNumBody true r
      | _ => parseNumBody false (c :: (t ++ rest))) = some (q, rest)
    split
    · rename_i heq
      rw [List.cons.injEq] at heq
      exact absurd heq.1 hcm
    · have hbody := parseNumBody_printQAbs q h0 hden false rest hrest
      rw [hct, List.cons_append] at hbody
      rw [hbody]
      rfl

/- ### String escaping roundtrip -/

theorem hexVal_hexDigitChar (d : ℕ) (h : d < 16) : hexVal (hexDigitChar d) = some d := by
  by_cases h10 : d < 10
  · have hdd : hexDigitChar d = digitChar d := by
      simp [hexDigitChar, h10]
    rw [hdd]
    unfold hexVal
    rw [if_pos (digitChar_isDigit d h10), digitChar_toNat d h10]
    congr 1
    omega
  · have hdd : hexDigitChar d = Char.ofNat (87 + d) := by
      simp [hexDigitChar, h10]
    have htn : (Char.ofNat (87 + d)).toNat = 87 + d := charOfNat_toNat _ (by omega)
    rw [hdd]
    unfold hexVal
    have hnd : (Char.ofNat (87 + d)).isDigit = false := by
      cases hd : (Char.ofNat (87 + d)).isDigit with
      | false => rfl
      | true =>
        have := isDigit_toNat _ hd
        omega
    rw [hnd]
    have hle : 'a' ≤ Char.ofNat (87 + d) ∧ Char.ofNat (87 + d) ≤ 'f' := by
      constructor
      · show ('a').val.toNat ≤ (Char.ofNat (87 + d)).val.toNat
        have h1 : ('a').val.toNat = 97 := rfl
        have h2 : (Char.ofNat (87 + d)).val.toNat = 87 + d := htn
        omega
      · show (Char.ofNat (87 + d)).val.toNat ≤ ('f').val.toNat
        have h1 : ('f').val.toNat = 102 := rfl
        have h2 : (Char.ofNat (87 + d)).val.toNat = 87 + d := htn
        omega
    simp only [Bool.false_eq_true, if_false, hle, if_true, and_true, htn]
    congr 1
    omega

theorem parseStringBody_escape (s rest : List Char) :
    parseStringBody (escapeChars s ++ '"' :: rest) = some (s, rest) := by
  induction s with
  | nil =>
    show parseStringBody ('"' :: rest) = some ([], rest)
    rw [parseStringBody.eq_def]
    simp
  | cons c cs ih =>
    have hstep : escapeChars (c :: cs) ++ '"' :: rest
        = escapeChar c ++ (escapeChars cs ++ '"' :: rest) := by
      show (escapeChar c ++ escapeChars cs) ++ '"' :: rest = _
      rw [List.append_assoc]
    rw [hstep]
    by_cases hc1 : c = '"'
    · subst hc1
      show parseStringBody ('\\' :: '"' :: (escapeChars cs ++ '"' :: rest)) = _
      rw [parseStringBody.eq_def]
      simp [escChar, ih]
    · by_cases hc2 : c = '\\'
      · subst hc2
        show parseStringBody ('\\' :: '\\' :: (escapeChars cs ++ '"' :: rest)) = _
        rw [parseStringBody.eq_def]
        simp [escChar, ih]
      · by_cases hc3 : c = '\x08'
        · subst hc3
          show parseStringBody ('\\' :: 'b' :: (escapeChars cs ++ '"' :: rest)) = _
          rw [parseStringBody.eq_def]
          simp [escChar, ih]
        · by_cases hc4 : c = '\t'
          · subst hc4
            show parseStringBody ('\\' :: 't' :: (escapeChars cs ++ '"' :: rest)) = _
            rw [parseStringBody.eq_def]
            simp [escChar, ih]
          · by_cases hc5 : c = '\n'
            · subst hc5
              show parseStringBody ('\\' :: 'n' :: (escapeChars cs ++ '"' :: rest)) = _
              rw [parseStringBody.eq_def]
              simp [escChar, ih]
            · by_cases hc6 : c = '\x0c'
              · subst hc6
                show parseStringBody ('\\' :: 'f' :: (escapeChars cs ++ '"' :: rest)) = _
                rw [parseStringBody.eq_def]
                simp [escChar, ih]
              · by_cases hc7 : c = '\r'
                · subst hc7
                  show parseStringBody ('\\' :: 'r' :: (escapeChars cs ++ '"' :: rest)) = _
                  rw [parseStringBody.eq_def]
                  simp [escChar, ih]
                · by_cases hc8 : c.toNat < 32
                  · have hesc : escapeChar c = ['\\', 'u', '0', '0',
                        hexDigitChar (c.toNat / 16), hexDigitChar (c.toNat % 16)] := by
                      simp [escapeChar, hc1, hc2, hc3, hc4, hc5, hc6, hc7, hc8]
                    rw [hesc]
                    have hhx1 : hexVal (hexDigitChar (c.toNat / 16)) = some (c.toNat / 16) :=
                      hexVal_hexDigitChar _ (by omega)
                    have hhx2 : hexVal (hexDigitChar (c.toNat % 16)) = some (c.toNat % 16) :=
                      hexVal_hexDigitChar _ (by omega)
                    have hz : hexVal '0' = some 0 := rfl
                    show parseStringBody ('\\' :: 'u' :: '0' :: '0'
                        :: hexDigitChar (c.toNat / 16) :: hexDigitChar (c.toNat % 16)
                        :: (escapeChars cs ++ '"' :: rest)) = some (c :: cs, rest)
                    rw [parseStringBody.eq_def]
                    simp [hz, hhx1, hhx2, ih]
                    have hm : c.toNat / 16 * 16 + c.toNat % 16 = c.toNat := by omega
                    rw [hm]
                    exact ⟨Or.inl (by omega), charOfNat_of_toNat c⟩
                  · have hesc : escapeChar c = [c] := by
                      simp [escapeChar, hc1, hc2, hc3, hc4, hc5, hc6, hc7, hc8]
                    rw [hesc]
                    show parseStringBody (c :: (escapeChars cs ++ '"' :: rest)) = _
                    rw [parseStringBody.eq_def]
                    simp only [List.cons_append, List.nil_append, if_neg hc1, if_neg hc2,
                      if_neg hc8, ih]
                    rfl

/- ### Whitespace and object reconstruction lemmas -/

theorem skipWs_not_ws (c : Char) (s : List Char) (h : isWsChar c = false) :
    skipWs (c :: s) = c :: s := by
  simp [skipWs, List.dropWhile, h]

theorem skipWs_replicate_space (n : ℕ) (s : List Char) :
    skipWs (List.replicate n ' ' ++ s) = skipWs s := by
  induction n with
  | zero => rfl
  | succ m ih =>
    show skipWs (' ' :: (List.replicate m ' ' ++ s)) = skipWs s
    rw [← ih]
    rfl

theorem skipWs_indent (n : ℕ) (s : List Char) :
    skipWs (indentChars n ++ s) = skipWs s := by
  show skipWs ('\n' :: (List.replicate n ' ' ++ s)) = skipWs s
  rw [← skipWs_replicate_space n s]
  rfl

theorem objSet_fresh (o : Obj) (k : String) (v : JVal)
    (h : o.any (fun p => p.1 == k) = false) : objSet o k v = o ++ [(k, v)] := by
  induction o with
  | nil => rfl
  | cons hd tl ih =>
    obtain ⟨k2, w⟩ := hd
    simp only [List.any_cons, Bool.or_eq_false_iff] at h
    have hk2 : k2 ≠ k := by
      intro he
      simp [he] at h
    simp [objSet, hk2, ih h.2]

theorem foldl_objSet_fresh (fs : List (String × JVal)) :
    ∀ acc : Obj, nodupKeysB fs = true →
      (∀ kv ∈ fs, acc.any (fun p => p.1 == kv.1) = false) →
      fs.foldl (fun a kv => objSet a kv.1 kv.2) acc = acc ++ fs := by
  induction fs with
  | nil =>
    intro acc _ _
    simp
  | cons hd tl ih =>
    intro acc hnd hacc
    obtain ⟨k, v⟩ := hd
    simp only [nodupKeysB, Bool.and_eq_true] at hnd
    have hfresh : tl.any (fun kv => kv.1 == k) = false := by
      simpa using hnd.1
    have hstep : objSet acc k v = acc ++ [(k, v)] :=
      objSet_fresh acc k v (hacc (k, v) (List.mem_cons_self _ _))
    show tl.foldl (fun a kv => objSet a kv.1 kv.2) (objSet acc k v) = acc ++ (k, v) :: tl
    rw [hstep, ih (acc ++ [(k, v)]) hnd.2]
    · simp
    · intro kv hkv
      rw [List.any_append]
      have h1 : acc.any (fun p => p.1 == kv.1) = false := hacc kv (List.mem_cons_of_mem _ hkv)
      have h2 : ([(k, v)] : Obj).any (fun p => p.1 == kv.1) = false := by
        simp only [List.any_cons, List.any_nil, Bool.or_false]
        have : k ≠ kv.1 := by
          intro he
          rw [List.any_eq_false] at hfresh
          have := hfresh kv hkv
          simp [he] at this
        simpa using this
      rw [h1, h2]
      rfl

theorem buildObj_self (fs : List (String × JVal)) (h : nodupKeysB fs = true) :
    buildObj fs = fs := by
  unfold buildObj
  rw [foldl_objSet_fresh fs [] h (fun kv _ => rfl)]
  rfl

theorem char_ne_of_toNat_ne (c d : Char) (h : c.toNat ≠ d.toNat) : c ≠ d :=
  fun he => h (congrArg Char.toNat he)

theorem head_flags_of_isDigit (c : Char) (h : c.isDigit = true) :
    isWsChar c = false ∧ c ≠ ']' ∧ c ≠ '\x7d' := by
  obtain ⟨h1, h2⟩ := isDigit_toNat c h
  refine ⟨?_, ?_, ?_⟩
  · unfold isWsChar
    have e1 : (c == ' ') = false := beq_eq_false_iff_ne.mpr
      (char_ne_of_toNat_ne c ' ' (by
        have hx : (' ' : Char).toNat = 32 := rfl
        omega))
    have e2 : (c == '\t') = false := beq_eq_false_iff_ne.mpr
      (char_ne_of_toNat_ne c '\t' (by
        have hx : ('\t' : Char).toNat = 9 := rfl
        omega))
    have e3 : (c == '\n') = false := beq_eq_false_iff_ne.mpr
      (char_ne_of_toNat_ne c '\n' (by
        have hx : ('\n' : Char).toNat = 10 := rfl
        omega))
    have e4 : (c == '\r') = false := beq_eq_false_iff_ne.mpr
      (char_ne_of_toNat_ne c '\r' (by
        have hx : ('\r' : Char).toNat = 13 := rfl
        omega))
    rw [e1, e2, e3, e4]
    rfl
  · exact char_ne_of_toNat_ne c ']' (by
      have hx : (']' : Char).toNat = 93 := rfl
      omega)
  · exact char_ne_of_toNat_ne c '\x7d' (by
      have hx : ('\x7d' : Char).toNat = 125 := rfl
      omega)

theorem printQ_head (q : ℚ) :
    ∃ c t, printQ q = c :: t ∧ (c = '-' ∨ c.isDigit = true) := by
  unfold printQ
  by_cases hq : q < 0
  · exact ⟨'-', printQAbs (-q), by simp [hq], Or.inl rfl⟩
  · obtain ⟨c, t, hct, hcd⟩ := printQAbs_head q
    exact ⟨c, t, by simp [hq, hct], Or.inr hcd⟩

theorem numHead_flags (c : Char) (h : c = '-' ∨ c.isDigit = true) :
    isWsChar c = false ∧ c ≠ '\x7b' ∧ c ≠ '[' ∧ c ≠ '"' ∧ c ≠ 't' ∧ c ≠ 'f' ∧ c ≠ 'n'
      ∧ c ≠ ']' ∧ c ≠ '\x7d' := by
  have hrange : c.toNat = 45 ∨ (48 ≤ c.toNat ∧ c.toNat ≤ 57) := by
    rcases h with h | h
    · left
      rw [h]
      rfl
    · right
      exact isDigit_toNat c h
  have hws : isWsChar c = false := by
    unfold isWsChar
    have e1 : (c == ' ') = false := beq_eq_false_iff_ne.mpr
      (char_ne_of_toNat_ne c ' ' (by
        have hx : (' ' : Char).toNat = 32 := rfl
        omega))
    have e2 : (c == '\t') = false := beq_eq_false_iff_ne.mpr
      (char_ne_of_toNat_ne c '\t' (by
        have hx : ('\t' : Char).toNat = 9 := rfl
        omega))
    have e3 : (c == '\n') = false := beq_eq_false_iff_ne.mpr
      (char_ne_of_toNat_ne c '\n' (by
        have hx : ('\n' : Char).toNat = 10 := rfl
        omega))
    have e4 : (c == '\r') = false := beq_eq_false_iff_ne.mpr
      (char_ne_of_toNat_ne c '\r' (by
        have hx : ('\r' : Char).toNat = 13 := rfl
        omega))
    rw [e1, e2, e3, e4]
    rfl
  refine ⟨hws, ?_, ?_, ?_, ?_, ?_, ?_, ?_, ?_⟩
  · exact char_ne_of_toNat_ne c '\x7b' (by
      have hx : ('\x7b' : Char).toNat = 123 := rfl
      omega)
  · exact char_ne_of_toNat_ne c '[' (by
      have hx : ('[' : Char).toNat = 91 := rfl
      omega)
  · exact char_ne_of_toNat_ne c '"' (by
      have hx : ('"' : Char).toNat = 34 := rfl
      omega)
  · exact char_ne_of_toNat_ne c 't' (by
      have hx : ('t' : Char).toNat = 116 := rfl
      omega)
  · exact char_ne_of_toNat_ne c 'f' (by
      have hx : ('f' : Char).toNat = 102 := rfl
      omega)
  · exact char_ne_of_toNat_ne c 'n' (by
      have hx : ('n' : Char).toNat = 110 := rfl
      omega)
  · exact char_ne_of_toNat_ne c ']' (by
      have hx : (']' : Char).toNat = 93 := rfl
      omega)
  · exact char_ne_of_toNat_ne c '\x7d' (by
      have hx : ('\x7d' : Char).toNat = 125 := rfl
      omega)

theorem parseJValue_skipWs_congr (fuel : ℕ) (s t : List Char) (h : skipWs s = skipWs t) :
    parseJValue fuel s = parseJValue fuel t := by
  cases fuel with
  | zero => rfl
  | succ f =>
    show (match skipWs s with
      | [] => none
      | c :: rest =>
        if c = '\x7b' then
          match skipWs rest with
          | '\x7d' :: r2 => some (.obj [], r2)
          | _ => (parseJFields f rest).map (fun p => (JVal.obj (buildObj p.1), p.2))
        else if c = '[' then
          match skipWs rest with
          | ']' :: r2 => some (.arr [], r2)
          | _ => (parseJItems f rest).map (fun p => (JVal.arr p.1, p.2))
        else if c = '"' then
          (parseStringBody rest).map (fun p => (JVal.str ⟨p.1⟩, p.2))
        else if c = 't' then
          match rest with
          | 'r' :: 'u' :: 'e' :: r2 => some (.bool true, r2)
          | _ => none
        else if c = 'f' then
          match rest with
          | 'a' :: 'l' :: 's' :: 'e' :: r2 => some (.bool false, r2)
          | _ => none
        else if c = 'n' then
          match rest with
          | 'u' :: 'l' :: 'l' :: r2 => some (.null, r2)
          | _ => none
        else
          (parseNumber (c :: rest)).map (fun p => (JVal.num p.1, p.2)))
      = parseJValue (f + 1) t
    rw [h]
    rfl

theorem printJson_head (ind : ℕ) (v : JVal) :
    ∃ c t, printJson ind v = c :: t ∧ isWsChar c = false ∧ c ≠ ']' ∧ c ≠ '\x7d' := by
  cases v with
  | null => exact ⟨'n', _, rfl, rfl, by decide, by decide⟩
  | bool b =>
    cases b with
    | false => exact ⟨'f', _, rfl, rfl, by decide, by decide⟩
    | true => exact ⟨'t', _, rfl, rfl, by decide, by decide⟩
  | num q =>
    obtain ⟨c, t, hct, hcd⟩ := printQ_head q
    have hf := numHead_flags c hcd
    exact ⟨c, t, by
      show printQ q = c :: t
      exact hct, hf.1, hf.2.2.2.2.2.2.2.1, hf.2.2.2.2.2.2.2.2⟩
  | str s => exact ⟨'"', _, rfl, rfl, by decide, by decide⟩
  | arr xs =>
    cases xs with
    | nil => exact ⟨'[', _, rfl, rfl, by decide, by decide⟩
    | cons x xs2 => exact ⟨'[', _, rfl, rfl, by decide, by decide⟩
  | obj fs =>
    cases fs with
    | nil => exact ⟨'\x7b', _, rfl, rfl, by decide, by decide⟩
    | cons f fs2 =>
      obtain ⟨k, v2⟩ := f
      exact ⟨'\x7b', _, rfl, rfl, by decide, by decide⟩

theorem parseJValue_succ_eq (f : ℕ) (s : List Char) :
    parseJValue (f + 1) s =
      match skipWs s with
      | [] => none
      | c :: rest =>
        if c = '\x7b' then
          match skipWs rest with
          | '\x7d' :: r2 => some (.obj [], r2)
          | _ => (parseJFields f rest).map (fun p => (JVal.obj (buildObj p.1), p.2))
        else if c = '[' then
          match skipWs rest with
          | ']' :: r2 => some (.arr [], r2)
          | _ => (parseJItems f rest).map (fun p => (JVal.arr p.1, p.2))
        else if c = '"' then
          (parseStringBody rest).map (fun p => (JVal.str ⟨p.1⟩, p.2))
        else if c = 't' then
          match rest with
          | 'r' :: 'u' :: 'e' :: r2 => some (.bool true, r2)
          | _ => none
        else if c = 'f' then
          match rest with
          | 'a' :: 'l' :: 's' :: 'e' :: r2 => some (.bool false, r2)
          | _ => none
        else if c = 'n' then
          match rest with
          | 'u' :: 'l' :: 'l' :: r2 => some (.null, r2)
          | _ => none
        else
          (parseNumber (c :: rest)).map (fun p => (JVal.num p.1, p.2)) := rfl

theorem parseJValue_succ_other (f : ℕ) (c : Char) (rest : List Char)
    (hws : isWsChar c = false)
    (h1 : c ≠ '\x7b') (h2 : c ≠ '[') (h3 : c ≠ '"') (h4 : c ≠ 't') (h5 : c ≠ 'f')
    (h6 : c ≠ 'n') :
    parseJValue (f + 1) (c :: rest)
      = (parseNumber (c :: rest)).map (fun p => (JVal.num p.1, p.2)) := by
  rw [parseJValue_succ_eq, skipWs_not_ws c rest hws]
  simp only [if_neg h1, if_neg h2, if_neg h3, if_neg h4, if_neg h5, if_neg h6]

theorem parseJItems_succ_eq (f : ℕ) (s : List Char) :
    parseJItems (f + 1) s =
      match parseJValue f s with
      | none => none
      | some (v, r1) =>
        match skipWs r1 with
        | ',' :: r2 => (parseJItems f r2).map (fun p => (v :: p.1, p.2))
        | ']' :: r2 => some ([v], r2)
        | _ => none := rfl

theorem parseJFields_succ_eq (f : ℕ) (s : List Char) :
    parseJFields (f + 1) s =
      match skipWs s with
      | '"' :: r1 =>
        match parseStringBody r1 with
        | none => none
        | some (k, r2) =>
          match skipWs r2 with
          | ':' :: r3 =>
            match parseJValue f r3 with
            | none => none
            | some (v, r4) =>
              match skipWs r4 with
              | ',' :: r5 => (parseJFields f r5).map (fun p => ((⟨k⟩, v) :: p.1, p.2))
              | '\x7d' :: r5 => some ([(⟨k⟩, v)], r5)
              | _ => none
          | _ => none
      | _ => none := rfl

theorem parseJValue_succ_null (f : ℕ) (rest : List Char) :
    parseJValue (f + 1) ('n' :: 'u' :: 'l' :: 'l' :: rest) = some (.null, rest) := rfl

theorem parseJValue_succ_true (f : ℕ) (rest : List Char) :
    parseJValue (f + 1) ('t' :: 'r' :: 'u' :: 'e' :: rest) = some (.bool true, rest) := rfl

theorem parseJValue_succ_false (f : ℕ) (rest : List Char) :
    parseJValue (f + 1) ('f' :: 'a' :: 'l' :: 's' :: 'e' :: rest) = some (.bool false, rest) := rfl

theorem parseJValue_succ_str (f : ℕ) (s : List Char) :
    parseJValue (f + 1) ('"' :: s)
      = (parseStringBody s).map (fun p => (JVal.str ⟨p.1⟩, p.2)) := rfl

theorem parseJValue_succ_obj (f : ℕ) (s t0 : List Char) (c0 : Char)
    (hskip : skipWs s = c0 :: t0) (hne : c0 ≠ '\x7d') :
    parseJValue (f + 1) ('\x7b' :: s)
      = (parseJFields f s).map (fun p => (JVal.obj (buildObj p.1), p.2)) := by
  have hw : isWsChar '\x7b' = false := rfl
  rw [parseJValue_succ_eq, skipWs_not_ws _ _ hw]
  simp only [eq_self_iff_true, if_true]
  rw [hskip]
  split
  · rename_i r2 heq
    rw [List.cons.injEq] at heq
    exact absurd heq.1 hne
  · rfl

theorem parseJValue_succ_arr (f : ℕ) (s t0 : List Char) (c0 : Char)
    (hskip : skipWs s = c0 :: t0) (hne : c0 ≠ ']') :
    parseJValue (f + 1) ('[' :: s)
      = (parseJItems f s).map (fun p => (JVal.arr p.1, p.2)) := by
  have hw : isWsChar '[' = false := rfl
  have hbr : ('[' : Char) ≠ '\x7b' := by decide
  rw [parseJValue_succ_eq, skipWs_not_ws _ _ hw]
  simp only [if_neg hbr, eq_self_iff_true, if_true]
  rw [hskip]
  split
  · rename_i r2 heq
    rw [List.cons.injEq] at heq
    exact absurd heq.1 hne
  · rfl


theorem roundtrip_main : ∀ fuel : ℕ,
    (∀ (v : JVal) (ind : ℕ) (rest : List Char), fuelNeeded v ≤ fuel → wfJ v = true →
      (∀ c, rest.head? = some c → c.isDigit = false ∧ c ≠ '.' ∧ c ≠ 'e' ∧ c ≠ 'E') →
      parseJValue fuel (printJson ind v ++ rest) = some (v, rest))
    ∧ (∀ (x : JVal) (xs : List JVal) (ind : ℕ) (rest : List Char),
      fuelNeededList (x :: xs) ≤ fuel → wfJ x = true → wfList xs = true →
      parseJItems fuel (indentChars (ind + 2) ++ (printJson (ind + 2) x
        ++ (printItemsRest ind xs ++ (indentChars ind ++ ']' :: rest))))
        = some (x :: xs, rest))
    ∧ (∀ (k : String) (v : JVal) (fs : List (String × JVal)) (ind : ℕ) (rest : List Char),
      fuelNeededFields ((k, v) :: fs) ≤ fuel → wfJ v = true → wfFields fs = true →
      parseJFields fuel (indentChars (ind + 2) ++ (printStr k ++ (':' :: ' '
        :: (printJson (ind + 2) v ++ (printFieldsRest ind fs
          ++ (indentChars ind ++ '\x7d' :: rest))))))
        = some ((k, v) :: fs, rest)) := by
  intro fuel
  induction fuel with
  | zero =>
    refine ⟨?_, ?_, ?_⟩
    · intro v ind rest hfuel _ _
      exact absurd hfuel (by cases v <;> simp only [fuelNeeded] <;> omega)
    · intro x xs ind rest hfuel _ _
      exact absurd hfuel (by simp only [fuelNeededList]; omega)
    · intro k v fs ind rest hfuel _ _
      exact absurd hfuel (by simp only [fuelNeededFields]; omega)
  | succ f ih =>
    obtain ⟨ihv, ihi, ihf⟩ := ih
    refine ⟨?_, ?_, ?_⟩
    · intro v ind rest hfuel hwf hrest
      cases v with
      | null => exact parseJValue_succ_null f rest
      | bool b =>
        cases b with
        | false => exact parseJValue_succ_false f rest
        | true => exact parseJValue_succ_true f rest
      | num q =>
        obtain ⟨c, t, hct, hcd⟩ := printQ_head q
        have hf := numHead_flags c hcd
        have hden : 10 ^ q.den % q.den = 0 := by simpa [wfJ] using hwf
        have hshape : printJson ind (.num q) ++ rest = c :: (t ++ rest) := by
          show printQ q ++ rest = c :: (t ++ rest)
          rw [hct, List.cons_append]
        rw [hshape, parseJValue_succ_other f c (t ++ rest) hf.1 hf.2.1 hf.2.2.1
          hf.2.2.2.1 hf.2.2.2.2.1 hf.2.2.2.2.2.1 hf.2.2.2.2.2.2.1]
        have hnum := parseNumber_printQ q hden rest hrest
        rw [hct, List.cons_append] at hnum
        rw [hnum]
        rfl
      | str s =>
        have hshape : printJson ind (.str s) ++ rest
            = '"' :: (escapeChars s.data ++ '"' :: rest) := by
          show ('"' :: (escapeChars s.data ++ ['"'])) ++ rest = _
          simp only [List.cons_append, List.append_assoc, List.singleton_append,
            List.nil_append]
        rw [hshape, parseJValue_succ_str f _, parseStringBody_escape s.data rest]
        rfl
      | arr xs =>
        cases xs with
        | nil => exact rfl
        | cons x xs2 =>
          have hb : fuelNeededList (x :: xs2) ≤ f := by
            simp only [fuelNeeded] at hfuel
            omega
          have hwx : wfJ x = true ∧ wfList xs2 = true := by
            simpa [wfJ, wfList] using hwf
          have hshape : printJson ind (.arr (x :: xs2)) ++ rest
              = '[' :: (indentChars (ind + 2) ++ (printJson (ind + 2) x
                ++ (printItemsRest ind xs2 ++ (indentChars ind ++ ']' :: rest)))) := by
            show ('[' :: (indentChars (ind + 2) ++ printJson (ind + 2) x
                ++ printItemsRest ind xs2 ++ indentChars ind ++ [']'])) ++ rest = _
            simp only [List.cons_append, List.append_assoc, List.singleton_append,
              List.nil_append]
          obtain ⟨c, t, hct, hcw, hcrb, _⟩ := printJson_head (ind + 2) x
          have hskip : skipWs (indentChars (ind + 2) ++ (printJson (ind + 2) x
              ++ (printItemsRest ind xs2 ++ (indentChars ind ++ ']' :: rest))))
              = c :: (t ++ (printItemsRest ind xs2 ++ (indentChars ind ++ ']' :: rest))) := by
            rw [skipWs_indent, hct, List.cons_append]
            exact skipWs_not_ws c _ hcw
          rw [hshape, parseJValue_succ_arr f _ _ c hskip hcrb,
            ihi x xs2 ind rest hb hwx.1 hwx.2]
          rfl
      | obj fs =>
        cases fs with
        | nil => exact rfl
        | cons kv fs2 =>
          obtain ⟨k, v2⟩ := kv
          have hb : fuelNeededFields ((k, v2) :: fs2) ≤ f := by
            simp only [fuelNeeded] at hfuel
            omega
          have hnd : nodupKeysB ((k, v2) :: fs2) = true ∧ wfJ v2 = true
              ∧ wfFields fs2 = true := by
            have h2 := hwf
            simp only [wfJ, wfFields, Bool.and_eq_true] at h2
            exact ⟨h2.1, h2.2.1, h2.2.2⟩
          have hshape : printJson ind (.obj ((k, v2) :: fs2)) ++ rest
              = '\x7b' :: (indentChars (ind + 2) ++ (printStr k ++ (':' :: ' '
                :: (printJson (ind + 2) v2 ++ (printFieldsRest ind fs2
                  ++ (indentChars ind ++ '\x7d' :: rest)))))) := by
            show ('\x7b' :: (indentChars (ind + 2) ++ printStr k ++ ':' :: ' '
                :: printJson (ind + 2) v2 ++ printFieldsRest ind fs2
                ++ indentChars ind ++ ['\x7d'])) ++ rest = _
            simp only [List.cons_append, List.append_assoc, List.singleton_append,
              List.nil_append]
          have hps : printStr k ++ (':' :: ' ' :: (printJson (ind + 2) v2
              ++ (printFieldsRest ind fs2 ++ (indentChars ind ++ '\x7d' :: rest))))
              = '"' :: (escapeChars k.data ++ ('"' :: (':' :: ' '
                :: (printJson (ind + 2) v2 ++ (printFieldsRest ind fs2
                  ++ (indentChars ind ++ '\x7d' :: rest)))))) := by
            show ('"' :: (escapeChars k.data ++ ['"'])) ++ _ = _
            simp only [List.cons_append, List.append_assoc, List.singleton_append,
              List.nil_append]
          have hskip : skipWs (indentChars (ind + 2) ++ (printStr k ++ (':' :: ' '
              :: (printJson (ind + 2) v2 ++ (printFieldsRest ind fs2
                ++ (indentChars ind ++ '\x7d' :: rest))))))
              = '"' :: (escapeChars k.data ++ ('"' :: (':' :: ' '
                :: (printJson (ind + 2) v2 ++ (printFieldsRest ind fs2
                  ++ (indentChars ind ++ '\x7d' :: rest)))))) := by
            rw [skipWs_indent, hps]
            exact skipWs_not_ws _ _ rfl
          rw [hshape, parseJValue_succ_obj f _ _ '"' hskip (by decide),
            ihf k v2 fs2 ind rest hb hnd.2.1 hnd.2.2]
          show some (JVal.obj (buildObj ((k, v2) :: fs2)), rest) = _
          rw [buildObj_self _ hnd.1]
    · intro x xs ind rest hfuel hwx hwxs
      have hbx : fuelNeeded x ≤ f := by
        simp only [fuelNeededList] at hfuel
        omega
      have hhead : ∀ c : Char, (printItemsRest ind xs ++ (indentChars ind ++ ']' :: rest)).head?
          = some c → c.isDigit = false ∧ c ≠ '.' ∧ c ≠ 'e' ∧ c ≠ 'E' := by
        cases xs with
        | nil =>
          intro c hc
          have hc2 : '\n' = c := by
            simpa [printItemsRest, indentChars] using hc
          rw [← hc2]
          exact ⟨rfl, by decide, by decide, by decide⟩
        | cons y ys =>
          intro c hc
          have hc2 : ',' = c := by
            simpa [printItemsRest] using hc
          rw [← hc2]
          exact ⟨rfl, by decide, by decide, by decide⟩
      have hval : parseJValue f (indentChars (ind + 2) ++ (printJson (ind + 2) x
          ++ (printItemsRest ind xs ++ (indentChars ind ++ ']' :: rest))))
          = some (x, printItemsRest ind xs ++ (indentChars ind ++ ']' :: rest)) := by
        rw [parseJValue_skipWs_congr f _ (printJson (ind + 2) x
          ++ (printItemsRest ind xs ++ (indentChars ind ++ ']' :: rest))) (skipWs_indent _ _)]
        exact ihv x (ind + 2) _ hbx hwx hhead
      rw [parseJItems_succ_eq, hval]
      cases xs with
      | nil =>
        have hsk : skipWs (printItemsRest ind [] ++ (indentChars ind ++ ']' :: rest))
            = ']' :: rest := by
          show skipWs (indentChars ind ++ ']' :: rest) = ']' :: rest
          rw [skipWs_indent]
          exact skipWs_not_ws _ _ rfl
        show (match skipWs (printItemsRest ind [] ++ (indentChars ind ++ ']' :: rest)) with
          | ',' :: r2 => (parseJItems f r2).map (fun p => (x :: p.1, p.2))
          | ']' :: r2 => some ([x], r2)
          | _ => none) = some ([x], rest)
        rw [hsk]
        rfl
      | cons y ys =>
        have hby : fuelNeededList (y :: ys) ≤ f := by
          simp only [fuelNeededList] at hfuel ⊢
          omega
        have hwy : wfJ y = true ∧ wfList ys = true := by
          simpa [wfList] using hwxs
        have hsk : skipWs (printItemsRest ind (y :: ys) ++ (indentChars ind ++ ']' :: rest))
            = ',' :: ((indentChars (ind + 2) ++ printJson (ind + 2) y ++ printItemsRest ind ys)
                ++ (indentChars ind ++ ']' :: rest)) := by
          show skipWs ((',' :: (indentChars (ind + 2) ++ printJson (ind + 2) y
              ++ printItemsRest ind ys)) ++ (indentChars ind ++ ']' :: rest)) = _
          rw [List.cons_append]
          exact skipWs_not_ws _ _ rfl
        show (match skipWs (printItemsRest ind (y :: ys)
            ++ (indentChars ind ++ ']' :: rest)) with
          | ',' :: r2 => (parseJItems f r2).map (fun p => (x :: p.1, p.2))
          | ']' :: r2 => some ([x], r2)
          | _ => none) = some (x :: y :: ys, rest)
        rw [hsk]
        have hT : (indentChars (ind + 2) ++ printJson (ind + 2) y ++ printItemsRest ind ys)
            ++ (indentChars ind ++ ']' :: rest)
            = indentChars (ind + 2) ++ (printJson (ind + 2) y ++ (printItemsRest ind ys
              ++ (indentChars ind ++ ']' :: rest))) := by
          simp only [List.append_assoc]
        show (parseJItems f ((indentChars (ind + 2) ++ printJson (ind + 2) y
            ++ printItemsRest ind ys) ++ (indentChars ind ++ ']' :: rest))).map
            (fun p => (x :: p.1, p.2)) = some (x :: y :: ys, rest)
        rw [hT, ihi y ys ind rest hby hwy.1 hwy.2]
        rfl
    · intro k v fs ind rest hfuel hwv hwfs
      have hbv : fuelNeeded v ≤ f := by
        simp only [fuelNeededFields] at hfuel
        omega
      have hhead : ∀ c : Char,
          (printFieldsRest ind fs ++ (indentChars ind ++ '\x7d' :: rest)).head?
          = some c → c.isDigit = false ∧ c ≠ '.' ∧ c ≠ 'e' ∧ c ≠ 'E' := by
        cases fs with
        | nil =>
          intro c hc
          have hc2 : '\n' = c := by
            simpa [printFieldsRest, indentChars] using hc
          rw [← hc2]
          exact ⟨rfl, by decide, by decide, by decide⟩
        | cons kv2 fs2 =>
          obtain ⟨k2, v2⟩ := kv2
          intro c hc
          have hc2 : ',' = c := by
            simpa [printFieldsRest] using hc
          rw [← hc2]
          exact ⟨rfl, by decide, by decide, by decide⟩
      have hps : printStr k ++ (':' :: ' ' :: (printJson (ind + 2) v
          ++ (printFieldsRest ind fs ++ (indentChars ind ++ '\x7d' :: rest))))
          = '"' :: (escapeChars k.data ++ ('"' :: (':' :: ' '
            :: (printJson (ind + 2) v ++ (printFieldsRest ind fs
              ++ (indentChars ind ++ '\x7d' :: rest)))))) := by
        show ('"' :: (escapeChars k.data ++ ['"'])) ++ _ = _
        simp only [List.cons_append, List.append_assoc, List.singleton_append,
          List.nil_append]
      have hsk : skipWs (indentChars (ind + 2) ++ (printStr k ++ (':' :: ' '
          :: (printJson (ind + 2) v ++ (printFieldsRest ind fs
            ++ (indentChars ind ++ '\x7d' :: rest))))))
          = '"' :: (escapeChars k.data ++ ('"' :: (':' :: ' '
            :: (printJson (ind + 2) v ++ (printFieldsRest ind fs
              ++ (indentChars ind ++ '\x7d' :: rest)))))) := by
        rw [skipWs_indent, hps]
        exact skipWs_not_ws _ _ rfl
      rw [parseJFields_succ_eq, hsk]
      show (match parseStringBody (escapeChars k.data ++ ('"' :: (':' :: ' '
          :: (printJson (ind + 2) v ++ (printFieldsRest ind fs
            ++ (indentChars ind ++ '\x7d' :: rest)))))) with
        | none => none
        | some (k2, r2) =>
          match skipWs r2 with
          | ':' :: r3 =>
            match parseJValue f r3 with
            | none => none
            | some (v2, r4) =>
              match skipWs r4 with
              | ',' :: r5 => (parseJFields f r5).map (fun p => ((⟨k2⟩, v2) :: p.1, p.2))
              | '\x7d' :: r5 => some ([(⟨k2⟩, v2)], r5)
              | _ => none
          | _ => none) = some ((k, v) :: fs, rest)
      rw [parseStringBody_escape k.data (':' :: ' ' :: (printJson (ind + 2) v
        ++ (printFieldsRest ind fs ++ (indentChars ind ++ '\x7d' :: rest))))]
      have hval : parseJValue f (' ' :: (printJson (ind + 2) v ++ (printFieldsRest ind fs
          ++ (indentChars ind ++ '\x7d' :: rest))))
          = some (v, printFieldsRest ind fs ++ (indentChars ind ++ '\x7d' :: rest)) := by
        rw [parseJValue_skipWs_congr f (' ' :: (printJson (ind + 2) v
          ++ (printFieldsRest ind fs ++ (indentChars ind ++ '\x7d' :: rest))))
          (printJson (ind + 2) v ++ (printFieldsRest ind fs
            ++ (indentChars ind ++ '\x7d' :: rest))) rfl]
        exact ihv v (ind + 2) _ hbv hwv hhead
      show (match parseJValue f (' ' :: (printJson (ind + 2) v ++ (printFieldsRest ind fs
          ++ (indentChars ind ++ '\x7d' :: rest)))) with
        | none => none
        | some (v2, r4) =>
          match skipWs r4 with
          | ',' :: r5 => (parseJFields f r5).map (fun p => ((⟨k.data⟩, v2) :: p.1, p.2))
          | '\x7d' :: r5 => some ([(⟨k.data⟩, v2)], r5)
          | _ => none) = some ((k, v) :: fs, rest)
      rw [hval]
      cases fs with
      | nil =>
        have hsk2 : skipWs (printFieldsRest ind [] ++ (indentChars ind ++ '\x7d' :: rest))
            = '\x7d' :: rest := by
          show skipWs (indentChars ind ++ '\x7d' :: rest) = '\x7d' :: rest
          rw [skipWs_indent]
          exact skipWs_not_ws _ _ rfl
        show (match skipWs (printFieldsRest ind []
            ++ (indentChars ind ++ '\x7d' :: rest)) with
          | ',' :: r5 => (parseJFields f r5).map (fun p => ((⟨k.data⟩, v) :: p.1, p.2))
          | '\x7d' :: r5 => some ([(⟨k.data⟩, v)], r5)
          | _ => none) = some ([(k, v)], rest)
        rw [hsk2]
        rfl
      | cons kv2 fs2 =>
        obtain ⟨k2, v2⟩ := kv2
        have hbf : fuelNeededFields ((k2, v2) :: fs2) ≤ f := by
          simp only [fuelNeededFields] at hfuel ⊢
          omega
        have hww : wfJ v2 = true ∧ wfFields fs2 = true := by
          simpa [wfFields] using hwfs
        have hsk2 : skipWs (printFieldsRest ind ((k2, v2) :: fs2)
            ++ (indentChars ind ++ '\x7d' :: rest))
            = ',' :: ((indentChars (ind + 2) ++ printStr k2 ++ ':' :: ' '
              :: printJson (ind + 2) v2 ++ printFieldsRest ind fs2)
                ++ (indentChars ind ++ '\x7d' :: rest)) := by
          show skipWs ((',' :: (indentChars (ind + 2) ++ printStr k2 ++ ':' :: ' '
              :: printJson (ind + 2) v2 ++ printFieldsRest ind fs2))
                ++ (indentChars ind ++ '\x7d' :: rest)) = _
          rw [List.cons_append]
          exact skipWs_not_ws _ _ rfl
        show (match skipWs (printFieldsRest ind ((k2, v2) :: fs2)
            ++ (indentChars ind ++ '\x7d' :: rest)) with
          | ',' :: r5 => (parseJFields f r5).map (fun p => ((⟨k.data⟩, v) :: p.1, p.2))
          | '\x7d' :: r5 => some ([(⟨k.data⟩, v)], r5)
          | _ => none) = some ((k, v) :: (k2, v2) :: fs2, rest)
        rw [hsk2]
        have hT : (indentChars (ind + 2) ++ printStr k2 ++ ':' :: ' '
            :: printJson (ind + 2) v2 ++ printFieldsRest ind fs2)
              ++ (indentChars ind ++ '\x7d' :: rest)
            = indentChars (ind + 2) ++ (printStr k2 ++ (':' :: ' '
              :: (printJson (ind + 2) v2 ++ (printFieldsRest ind fs2
                ++ (indentChars ind ++ '\x7d' :: rest))))) := by
          simp only [List.cons_append, List.append_assoc]
        show (parseJFields f ((indentChars (ind + 2) ++ printStr k2 ++ ':' :: ' '
            :: printJson (ind + 2) v2 ++ printFieldsRest ind fs2)
              ++ (indentChars ind ++ '\x7d' :: rest))).map
            (fun p => ((⟨k.data⟩, v) :: p.1, p.2)) = some ((k, v) :: (k2, v2) :: fs2, rest)
        rw [hT, ihf k2 v2 fs2 ind rest hbf hww.1 hww.2]
        rfl

theorem fuel_le_print_main : ∀ n : ℕ,
    (∀ v : JVal, fuelNeeded v ≤ n → ∀ ind : ℕ, fuelNeeded v ≤ (printJson ind v).length)
    ∧ (∀ xs : List JVal, fuelNeededList xs ≤ n →
        ∀ ind : ℕ, fuelNeededList xs ≤ (printItemsRest ind xs).length)
    ∧ (∀ fs : List (String × JVal), fuelNeededFields fs ≤ n →
        ∀ ind : ℕ, fuelNeededFields fs ≤ (printFieldsRest ind fs).length) := by
  intro n
  induction n with
  | zero =>
    refine ⟨?_, ?_, ?_⟩
    · intro v hv ind
      exact absurd hv (by cases v <;> simp only [fuelNeeded] <;> omega)
    · intro xs hxs ind
      cases xs with
      | nil =>
        simp only [fuelNeededList, printItemsRest, List.length_nil]
        omega
      | cons y ys => exact absurd hxs (by simp only [fuelNeededList]; omega)
    · intro fs hfs ind
      cases fs with
      | nil =>
        simp only [fuelNeededFields, printFieldsRest, List.length_nil]
        omega
      | cons kv fs2 =>
        obtain ⟨k2, v2⟩ := kv
        exact absurd hfs (by simp only [fuelNeededFields]; omega)
  | succ m ih =>
    obtain ⟨ihv, ihi, ihf⟩ := ih
    refine ⟨?_, ?_, ?_⟩
    · intro v hv ind
      cases v with
      | null =>
        simp only [fuelNeeded, printJson, List.length_cons, List.length_nil]
        omega
      | bool b =>
        cases b <;> simp [fuelNeeded, printJson]
      | num q =>
        obtain ⟨c, t, hct, _⟩ := printQ_head q
        show fuelNeeded (.num q) ≤ (printQ q).length
        rw [hct]
        simp only [fuelNeeded, List.length_cons]
        omega
      | str s =>
        show fuelNeeded (.str s) ≤ (printStr s).length
        simp only [fuelNeeded, printStr, List.length_cons]
        omega
      | arr xs =>
        cases xs with
        | nil =>
          simp only [fuelNeeded, fuelNeededList, printJson, List.length_cons,
            List.length_nil]
          omega
        | cons x xs2 =>
          have h1 : fuelNeeded x ≤ m := by
            simp only [fuelNeeded, fuelNeededList] at hv
            omega
          have h2 : fuelNeededList xs2 ≤ m := by
            simp only [fuelNeeded, fuelNeededList] at hv
            omega
          have b1 := ihv x h1 (ind + 2)
          have b2 := ihi xs2 h2 ind
          simp only [fuelNeeded, fuelNeededList, printJson, List.length_cons,
            List.length_append, List.length_nil]
          omega
      | obj fs =>
        cases fs with
        | nil =>
          simp only [fuelNeeded, fuelNeededFields, printJson, List.length_cons,
            List.length_nil]
          omega
        | cons kv fs2 =>
          obtain ⟨k2, v2⟩ := kv
          have h1 : fuelNeeded v2 ≤ m := by
            simp only [fuelNeeded, fuelNeededFields] at hv
            omega
          have h2 : fuelNeededFields fs2 ≤ m := by
            simp only [fuelNeeded, fuelNeededFields] at hv
            omega
          have b1 := ihv v2 h1 (ind + 2)
          have b2 := ihf fs2 h2 ind
          simp only [fuelNeeded, fuelNeededFields, printJson, List.length_cons,
            List.length_append, List.length_nil]
          omega
    · intro xs hxs ind
      cases xs with
      | nil =>
        simp only [fuelNeededList, printItemsRest, List.length_nil]
        omega
      | cons y ys =>
        have h1 : fuelNeeded y ≤ m := by
          simp only [fuelNeededList] at hxs
          omega
        have h2 : fuelNeededList ys ≤ m := by
          simp only [fuelNeededList] at hxs
          omega
        have b1 := ihv y h1 (ind + 2)
        have b2 := ihi ys h2 ind
        simp only [fuelNeededList, printItemsRest, List.length_cons, List.length_append]
        omega
    · intro fs hfs ind
      cases fs with
      | nil =>
        simp only [fuelNeededFields, printFieldsRest, List.length_nil]
        omega
      | cons kv fs2 =>
        obtain ⟨k2, v2⟩ := kv
        have h1 : fuelNeeded v2 ≤ m := by
          simp only [fuelNeededFields] at hfs
          omega
        have h2 : fuelNeededFields fs2 ≤ m := by
          simp only [fuelNeededFields] at hfs
          omega
        have b1 := ihv v2 h1 (ind + 2)
        have b2 := ihf fs2 h2 ind
        simp only [fuelNeededFields, printFieldsRest, List.length_cons, List.length_append]
        omega

theorem jsonParse_stringifyJ (v : JVal) (h : wfJ v = true) :
    jsonParse (stringifyJ v) = some v := by
  have hbound : fuelNeeded v ≤ (printJson 0 v).length :=
    (fuel_le_print_main (fuelNeeded v)).1 v le_rfl 0
  have hmain := (roundtrip_main ((printJson 0 v).length + 1)).1 v 0 []
    (by omega) h (by intro c hc; simp at hc)
  rw [List.append_nil] at hmain
  show (match parseJValue ((printJson 0 v).length + 1) (printJson 0 v) with
    | some (w, rest) => if (skipWs rest).isEmpty then some w else none
    | none => none) = some v
  rw [hmain]
  rfl

theorem stringifyJ_ne_empty (v : JVal) : stringifyJ v ≠ "" := by
  obtain ⟨c, t, hct, _, _, _⟩ := printJson_head 0 v
  intro he
  have hd : printJson 0 v = ([] : List Char) := congrArg String.data he
  rw [hct] at hd
  exact absurd hd (by simp)

/-- C8: for every sequence of records (a JSON-representable document: numbers
with terminating decimal expansions, objects with pairwise-distinct keys, as
every JavaScript collection the server holds), saving the sequence with
`writeJsonSafe` and then loading the same collection with `readJsonSafe`
yields a sequence identical to the one saved: same order, same records, no
field added or lost. -/
theorem save_load_roundtrip (records : List Obj)
    (h : wfJ (.arr (records.map .obj)) = true) :
    readJsonSafe (writeJsonSafe (.arr (records.map .obj))) (.arr [])
      = .arr (records.map .obj) := by
  show (if stringifyJ (.arr (records.map .obj)) = "" then JVal.arr []
    else match jsonParse (stringifyJ (.arr (records.map .obj))) with
      | some v => v
      | none => JVal.arr []) = JVal.arr (records.map .obj)
  rw [if_neg (stringifyJ_ne_empty _), jsonParse_stringifyJ _ h]

theorem save_load_roundtrip_witness :
    wfJ (.arr (([[("SN", JVal.str "DEV1"), ("model", JVal.str "X1"),
        ("capacities", JVal.num 1000), ("online", JVal.bool true),
        ("raw", JVal.null)],
      [("SN", JVal.str "DEV2"), ("ip", JVal.str "10.0.0.7")]] : List Obj).map .obj))
      = true
    ∧ readJsonSafe (writeJsonSafe (.arr (([[("SN", JVal.str "DEV1"),
        ("model", JVal.str "X1"), ("capacities", JVal.num 1000),
        ("online", JVal.bool true), ("raw", JVal.null)],
      [("SN", JVal.str "DEV2"), ("ip", JVal.str "10.0.0.7")]] : List Obj).map .obj)))
        (.arr [])
      = .arr (([[("SN", JVal.str "DEV1"), ("model", JVal.str "X1"),
        ("capacities", JVal.num 1000), ("online", JVal.bool true),
        ("raw", JVal.null)],
      [("SN", JVal.str "DEV2"), ("ip", JVal.str "10.0.0.7")]] : List Obj).map .obj) :=
  ⟨by decide, save_load_roundtrip _ (by decide)⟩
